import Mathlib

/-!
# ELF symbol tables for mapped binaries (`symtab/elf.go`)

A shallow embedding of `component/pyroscope/ebpf/ebpfspy/symtab/elf.go` and the
properties of its load-base computation, build-id extraction, debug-file
search and symbol extraction.

Conventions of the embedding.

* `uint64` values are natural numbers; arithmetic that can wrap is written with
  an explicit `% 2 ^ 64`.
* A Go `string` is a sequence of bytes.  It is represented by the Lean `String`
  whose `i`-th character has the code of the `i`-th byte, so `len s` is
  `s.length` and `s[i:j]` is a slice of `s.data`.
* A `[]byte` is a `List Byte` with `Byte = Fin 256`.
* Pointers to readers are natural numbers handed out by the world at each
  successful open; every effect on the outside world (open, stat, cache
  lookup, cache store, symbol read, close) is appended to the world's log.
-/

namespace Symtab

/-! ## Machine integers and bytes -/

/-- One octet. -/
abbrev Byte := Fin 256

/-- Conversion `uint64(x)` of a signed 64-bit value. -/
def uint64 (x : Int) : Nat := (x % 2 ^ 64).toNat

/-- Subtraction of `uint64` values, wrapping modulo `2 ^ 64`. -/
def sub64 (a b : Nat) : Nat := (a + (2 ^ 64 - b % 2 ^ 64)) % 2 ^ 64

/-! ## Constants of `debug/elf` -/

/-- Header type of a non-relocatable executable, `elf.ET_EXEC`. -/
def ET_EXEC : Nat := 2

/-- Header type of a shared object, `elf.ET_DYN`. -/
def ET_DYN : Nat := 3

/-- Program header type of a loadable segment, `elf.PT_LOAD`. -/
def PT_LOAD : Nat := 1

/-- Program header flag "executable", `elf.PF_X`. -/
def PF_X : Nat := 1

/-- Symbol type "function", `elf.STT_FUNC`. -/
def STT_FUNC : Nat := 2

/-! ## Errors -/

/-- Error values: the three package-level errors of `elf.go`, errors built by
`fmt.Errorf` (message, and the wrapped error for `%w`), and errors reported by
the operating system. -/
inductive Error where
  | errNoBuildID
  | errElfBaseNotFound
  | errNoDebugLink
  | errorf (msg : String)
  | wrap (msg : String) (inner : Error)
  | os (msg : String)
  deriving DecidableEq, Repr

/-! ## Data model -/

/-- Program header, the fields of `elf.ProgHeader` read by `findBase`; `Typ` is
the Go field `Type`. -/
structure ProgHeader where
  Typ : Nat
  Flags : Nat
  Off : Nat
  Vaddr : Nat
  deriving DecidableEq, Repr

/-- Header of the file, the field of `elf.FileHeader` read by `findBase`; `Typ`
is the Go field `Type`. -/
structure FileHeader where
  Typ : Nat
  deriving DecidableEq, Repr

/-- Entry of a symbol table, the fields of `elf.Symbol` read by the extractor. -/
structure ElfSymbol where
  Name : String
  Info : Nat
  Value : Nat
  deriving DecidableEq, Repr

/-- Entry of a symbol index. -/
structure Sym where
  Name : String
  Start : Nat
  deriving DecidableEq, Repr

/-- Modelled from the spec: the file identity `stat` (device, inode, size,
modification time); its declaration is not part of the sources at hand. -/
structure Stat where
  dev : Nat
  ino : Nat
  size : Nat
  modTime : Nat
  deriving DecidableEq, Repr

/-- The zero identity `stat{}`. -/
def Stat.zero : Stat := ⟨0, 0, 0, 0⟩

/-- Result of a successful `os.Stat`. -/
structure FileInfo where
  dev : Nat
  ino : Nat
  size : Nat
  modTime : Nat
  deriving DecidableEq, Repr

/-- Modelled from the spec: `statFromFileInfo` keeps device, inode, size and
modification time of the file. -/
def statFromFileInfo (fi : FileInfo) : Stat := ⟨fi.dev, fi.ino, fi.size, fi.modTime⟩

/-- Section of an ELF file: its name and what reading its data gives. -/
structure ElfSection where
  Name : String
  data : Except Error (List Byte)

/-- Contents of an ELF file as the reader exposes them. -/
structure ElfImage where
  FileHeader : FileHeader
  Progs : List ProgHeader
  Sections : List ElfSection
  symtab : List ElfSymbol
  dynsym : List ElfSymbol
  readSymbolsErr : Option Error

/-- Modelled from the spec: the binary reader `MMapedElfFile` (open, section,
section data, program headers, close); its declaration is not part of the
sources at hand.  `ptr` is the identity of the reader object. -/
structure MMapedElfFile where
  ptr : Nat
  image : ElfImage

/-- Field access `e.FileHeader`. -/
def MMapedElfFile.FileHeader (e : MMapedElfFile) : FileHeader := e.image.FileHeader

/-- Field access `e.Progs`. -/
def MMapedElfFile.Progs (e : MMapedElfFile) : List ProgHeader := e.image.Progs

/-- Lookup `e.Section(name)`: the first section of that name, if any. -/
def MMapedElfFile.Section (e : MMapedElfFile) (name : String) : Option ElfSection :=
  e.image.Sections.find? (fun s => s.Name == name)

/-- Read `e.SectionData(s)`. -/
def MMapedElfFile.SectionData (_e : MMapedElfFile) (s : ElfSection) : Except Error (List Byte) :=
  s.data

/-- Memory mapping of a process, the fields of `ProcMap` read by `findBase`. -/
structure ProcMap where
  StartAddr : Nat
  Offset : Int
  deriving DecidableEq, Repr

/-- A resolver of addresses to names: the placeholder without symbols, or a
reader. -/
inductive SymbolNameResolver where
  | noop
  | elf (r : MMapedElfFile)

/-- The table of one mapped binary. -/
structure ElfTable where
  fs : String
  elfFilePath : String
  table : SymbolNameResolver
  base : Nat
  loaded : Bool
  err : Option Error
  procMap : ProcMap

/-- Constructor `NewElfTable`. -/
def NewElfTable (procMap : ProcMap) (fs : String) (elfFilePath : String) : ElfTable :=
  { procMap := procMap
    fs := fs
    elfFilePath := elfFilePath
    table := SymbolNameResolver.noop
    base := 0
    loaded := false
    err := none }

/-! ## Load base -/

/-- The loop of `findBase` over the program headers. -/
def findBaseLoop (m : ProcMap) (t : ElfTable) : List ProgHeader → Bool × ElfTable
  | [] => (false, t)
  | prog :: rest =>
    if prog.Typ == PT_LOAD && (prog.Flags &&& PF_X != 0) then
      if uint64 m.Offset == prog.Off then
        (true, { t with base := sub64 m.StartAddr prog.Vaddr })
      else findBaseLoop m t rest
    else findBaseLoop m t rest

/-- Method `(*ElfTable).findBase`: the result and the table afterwards. -/
def ElfTable.findBase (p : ElfTable) (e : MMapedElfFile) : Bool × ElfTable :=
  let m := p.procMap
  if e.FileHeader.Typ == ET_EXEC then
    (true, { p with base := 0 })
  else
    findBaseLoop m p e.Progs

/-- A program header that `findBase` accepts for the mapping `m`: loadable,
executable, and at the file offset of the mapping. -/
def ProgHeader.Matches (m : ProcMap) (prog : ProgHeader) : Prop :=
  prog.Typ = PT_LOAD ∧ prog.Flags &&& PF_X ≠ 0 ∧ prog.Off = uint64 m.Offset

instance (m : ProcMap) (prog : ProgHeader) : Decidable (prog.Matches m) :=
  inferInstanceAs (Decidable (prog.Typ = PT_LOAD ∧ prog.Flags &&& PF_X ≠ 0 ∧
    prog.Off = uint64 m.Offset))

/-! ## Build identifier -/

/-- The digits of `encoding/hex`. -/
def hextable : List Char := "0123456789abcdef".data

/-- The loop of `hex.Encode`: two digits for each byte, high nibble first. -/
def hexEncode : List Byte → List Char
  | [] => []
  | v :: rest =>
    hextable.getD (v.val >>> 4) '0' :: hextable.getD (v.val &&& 0x0f) '0' :: hexEncode rest

/-- Library function `hex.EncodeToString`. -/
def hex.EncodeToString (src : List Byte) : String := String.mk (hexEncode src)

/-- The bytes of the literal `[]byte("GNU")`. -/
def gnuMarker : List Byte := [0x47, 0x4e, 0x55]

/-- Slice `data[lo:hi]` of a byte slice that is long enough. -/
def byteSlice (data : List Byte) (lo hi : Nat) : List Byte := (data.drop lo).take (hi - lo)

/-- Function `getBuildID`: the returned string and the returned error. -/
def getBuildID (elfFile : MMapedElfFile) : String × Option Error :=
  match elfFile.Section ".note.gnu.build-id" with
  | none => ("", some Error.errNoBuildID)
  | some buildIDSection =>
    match elfFile.SectionData buildIDSection with
    | .error err => ("", some (Error.wrap "reading .note.gnu.build-id " err))
    | .ok data =>
      if data.length < 16 then
        ("", some (Error.errorf ".note.gnu.build-id is too small"))
      else if !(gnuMarker == byteSlice data 12 15) then
        ("", some (Error.errorf ".note.gnu.build-id is not a GNU build-id"))
      else
        let buildID := hex.EncodeToString (data.drop 16)
        (buildID, none)

/-- Value of a lower-case hexadecimal digit (0 for any other character). -/
def hexValue (c : Char) : Nat :=
  if '0'.toNat ≤ c.toNat ∧ c.toNat ≤ '9'.toNat then c.toNat - '0'.toNat
  else if 'a'.toNat ≤ c.toNat ∧ c.toNat ≤ 'f'.toNat then c.toNat - 'a'.toNat + 10
  else 0

/-- A character of `[0-9a-f]`. -/
def isLowerHex (c : Char) : Prop :=
  ('0'.toNat ≤ c.toNat ∧ c.toNat ≤ '9'.toNat) ∨ ('a'.toNat ≤ c.toNat ∧ c.toNat ≤ 'f'.toNat)

/-! ## Paths (package `path`) -/

/-- The elements of a path between its slashes. -/
def splitSlash : List Char → List (List Char)
  | [] => [[]]
  | c :: cs =>
    if c == '/' then [] :: splitSlash cs
    else
      match splitSlash cs with
      | [] => [[c]]
      | hd :: tl => (c :: hd) :: tl

/-- One element seen by `path.Clean`; `out` holds the elements kept so far, the
last one first.  Empty elements and `.` are dropped, `..` removes the element
before it when there is one, is dropped at the root and kept otherwise. -/
def cleanStep (rooted : Bool) (out : List (List Char)) (comp : List Char) : List (List Char) :=
  if comp == [] || comp == ['.'] then out
  else if comp == ['.', '.'] then
    match out with
    | top :: rest => if top == ['.', '.'] then comp :: out else rest
    | [] => if rooted then out else [comp]
  else comp :: out

/-- The elements joined by slashes. -/
def joinSlash : List (List Char) → List Char
  | [] => []
  | [x] => x
  | x :: y :: rest => x ++ '/' :: joinSlash (y :: rest)

/-- Library function `path.Clean` on the bytes of a path. -/
def cleanChars (p : List Char) : List Char :=
  match p with
  | [] => ['.']
  | c :: _ =>
    let rooted := c == '/'
    let kept := ((splitSlash p).foldl (cleanStep rooted) []).reverse
    let res := (if rooted then ['/'] else []) ++ joinSlash kept
    if res == [] then ['.'] else res

/-- Library function `path.Clean`. -/
def path.Clean (p : String) : String := String.mk (cleanChars p.data)

/-- Library function `path.Join`: the elements from the first non-empty one on,
joined by slashes and cleaned; the empty string when all are empty. -/
def path.Join (elem : List String) : String :=
  match elem.dropWhile (fun e => e.data == []) with
  | [] => ""
  | rest => String.mk (cleanChars (joinSlash (rest.map String.data)))

/-- The part of a path up to and including its last slash. -/
def dirPart : List Char → List Char
  | [] => []
  | c :: cs =>
    match dirPart cs with
    | [] => if c == '/' then [c] else []
    | r => c :: r

/-- Library function `path.Dir`. -/
def path.Dir (p : String) : String := String.mk (cleanChars (dirPart p.data))

/-- Function `cString`: the bytes before the first zero byte, as a string. -/
def cStringLoop : List Byte → List Char
  | [] => []
  | b :: bs => if b == 0 then [] else Char.ofNat b.val :: cStringLoop bs

/-- Function `cString`. -/
def cString (bs : List Byte) : String := String.mk (cStringLoop bs)

/-! ## Symbol extraction -/

/-- Byte-wise comparison of two strings, the loop of `strings.Compare`. -/
def compareChars : List Char → List Char → Int
  | [], [] => 0
  | [], _ :: _ => -1
  | _ :: _, [] => 1
  | x :: xs, y :: ys =>
    if x.toNat < y.toNat then -1
    else if y.toNat < x.toNat then 1
    else compareChars xs ys

/-- Library function `strings.Compare`. -/
def strings.Compare (a b : String) : Int := compareChars a.data b.data

/-- The comparison passed to `slices.SortFunc`: by `Start`, then by `Name`. -/
def symLess (a b : Sym) : Bool :=
  if a.Start == b.Start then
    decide (strings.Compare a.Name b.Name < 0)
  else
    decide (a.Start < b.Start)

/-- Insertion of one element in front of the first element that is not below
it. -/
def insertLess {α : Type} (less : α → α → Bool) (x : α) : List α → List α
  | [] => [x]
  | y :: ys => if less x y then x :: y :: ys else y :: insertLess less x ys

/-- Library function `slices.SortFunc`, as an insertion sort (the library sorts
short slices by insertion; `symLess` is a strict total order on `Sym`, so
every correct sort returns the same slice, see `sortFunc_unique`). -/
def slices.SortFunc {α : Type} (less : α → α → Bool) : List α → List α
  | [] => []
  | x :: xs => insertLess less x (slices.SortFunc less xs)

/-- The test of the closure `add`: a non-zero value and the type nibble of a
function. -/
def ElfSymbol.qualifies (sym : ElfSymbol) : Bool :=
  sym.Value != 0 && (sym.Info &&& 0xf == STT_FUNC)

/-- The closure `add` of `getELFSymbolsFromSymtab`: the qualifying entries of
`t` appended to `symbols`. -/
def addSymbols (symbols : List Sym) : List ElfSymbol → List Sym
  | [] => symbols
  | sym :: rest =>
    if sym.Value != 0 && (sym.Info &&& 0xf == STT_FUNC) then
      addSymbols (symbols ++ [{ Name := sym.Name, Start := sym.Value }]) rest
    else
      addSymbols symbols rest

/-- Function `getELFSymbolsFromSymtab`, given what `elfFile.Symbols()` and
`elfFile.DynamicSymbols()` return (their errors are ignored by the source). -/
def getELFSymbolsFromSymtab (symtab dynsym : List ElfSymbol) : List Sym :=
  let symbols : List Sym := []
  let symbols := addSymbols symbols symtab
  let symbols := addSymbols symbols dynsym
  slices.SortFunc symLess symbols

/-- The index entry made from a symbol table entry. -/
def ElfSymbol.toSym (sym : ElfSymbol) : Sym := { Name := sym.Name, Start := sym.Value }

/-- The order of a symbol index: by `Start`, ties by `Name`. -/
def SymOrdered (a b : Sym) : Prop :=
  a.Start ≤ b.Start ∧ (a.Start = b.Start → a.Name ≤ b.Name)

/-! ## The world: files, cache, log -/

/-- An effect on the outside world. -/
inductive Event where
  | openFile (fpath : String)
  | stat (fpath : String)
  | getByBuildID (buildID : String)
  | getByStat (s : Stat)
  | cacheByBuildID (buildID : String) (ptr : Nat)
  | cacheByStat (s : Stat) (ptr : Nat)
  | readSymbols (ptr : Nat)
  | close (ptr : Nat)
  deriving DecidableEq, Repr

/-- Modelled from the spec: the symbol cache `ElfCache`, a store of indices by
build-id and by file identity; its declaration is not part of the sources at
hand.  The newest entry is first. -/
structure ElfCache where
  BuildIDCache : List (String × SymbolNameResolver)
  SameFileCache : List (Stat × SymbolNameResolver)

/-- The outside world of a table: what opening and stat-ing a path give, the
shared cache, the next reader identity and the log of effects. -/
structure World where
  files : String → Except Error ElfImage
  stats : String → Except Error FileInfo
  cache : ElfCache
  nextPtr : Nat
  log : List Event

/-- Record one effect. -/
def World.emit (w : World) (ev : Event) : World := { w with log := w.log ++ [ev] }

/-- Constructor `NewMMapedElfFile`: opens the file and returns a new reader. -/
def NewMMapedElfFile (w : World) (fpath : String) : World × Except Error MMapedElfFile :=
  let w := w.emit (Event.openFile fpath)
  match w.files fpath with
  | .error err => (w, .error err)
  | .ok img => ({ w with nextPtr := w.nextPtr + 1 }, .ok { ptr := w.nextPtr, image := img })

/-- Library function `os.Stat`. -/
def os.Stat (w : World) (fpath : String) : World × Except Error FileInfo :=
  (w.emit (Event.stat fpath), w.stats fpath)

/-- Method `readSymbols` of a reader: the error it returns, if any. -/
def MMapedElfFile.readSymbols (w : World) (e : MMapedElfFile) : World × Option Error :=
  (w.emit (Event.readSymbols e.ptr), e.image.readSymbolsErr)

/-- Method `close` of a reader. -/
def MMapedElfFile.close (w : World) (e : MMapedElfFile) : World :=
  w.emit (Event.close e.ptr)

/-- Modelled from the spec: `lookupByBuildID`, the index stored last under the
build-id, if any. -/
def ElfCache.GetSymbolsByBuildID (w : World) (buildID : String) :
    World × Option SymbolNameResolver :=
  (w.emit (Event.getByBuildID buildID), w.cache.BuildIDCache.lookup buildID)

/-- Modelled from the spec: `lookupByIdentity`, the index stored last under the
file identity, if any. -/
def ElfCache.GetSymbolsByStat (w : World) (s : Stat) : World × Option SymbolNameResolver :=
  (w.emit (Event.getByStat s), w.cache.SameFileCache.lookup s)

/-- Modelled from the spec: `store` under the build-id; an empty key is
skipped. -/
def ElfCache.CacheByBuildID (w : World) (buildID : String) (v : MMapedElfFile) : World :=
  let w := w.emit (Event.cacheByBuildID buildID v.ptr)
  if buildID.data == [] then w
  else { w with cache := { w.cache with
    BuildIDCache := (buildID, SymbolNameResolver.elf v) :: w.cache.BuildIDCache } }

/-- Modelled from the spec: `store` under the file identity; the zero identity
is skipped. -/
def ElfCache.CacheByStat (w : World) (s : Stat) (v : MMapedElfFile) : World :=
  let w := w.emit (Event.cacheByStat s v.ptr)
  if s == Stat.zero then w
  else { w with cache := { w.cache with
    SameFileCache := (s, SymbolNameResolver.elf v) :: w.cache.SameFileCache } }

/-- Comparison `t.table != me` of the table's resolver with a reader, by the
identity of the reader object. -/
def SymbolNameResolver.isNot (s : SymbolNameResolver) (me : MMapedElfFile) : Bool :=
  match s with
  | .noop => true
  | .elf r => r.ptr != me.ptr

/-! ## Debug-file search -/

/-- The build-id path `/usr/lib/debug/.build-id/<id[:2]>/<id[2:]>.debug` made by
`fmt.Sprintf`. -/
def buildIDDebugFile (buildID : String) : String :=
  "/usr/lib/debug/.build-id/" ++ String.mk (buildID.data.take 2) ++ "/" ++
    String.mk (buildID.data.drop 2) ++ ".debug"

/-- Method `findDebugFileWithBuildID`. -/
def ElfTable.findDebugFileWithBuildID (w : World) (t : ElfTable) (buildID : String) :
    World × String × Stat :=
  if buildID.length < 3 then
    (w, "", Stat.zero)
  else
    let debugFile := buildIDDebugFile buildID
    let fsDebugFile := path.Join [t.fs, debugFile]
    match os.Stat w fsDebugFile with
    | (w, .ok fileInfo) => (w, debugFile, statFromFileInfo fileInfo)
    | (w, .error _) => (w, "", Stat.zero)

/-- Method `findDebugFileWithDebugLink`: path, identity and error. -/
def ElfTable.findDebugFileWithDebugLink (w : World) (t : ElfTable) (elfFile : MMapedElfFile) :
    World × String × Stat × Option Error :=
  let fs := t.fs
  let elfFilePath := t.elfFilePath
  match elfFile.Section ".gnu_debuglink" with
  | none => (w, "", Stat.zero, some Error.errNoDebugLink)
  | some debugLinkSection =>
    match elfFile.SectionData debugLinkSection with
    | .error err => (w, "", Stat.zero, some (Error.wrap "reading .gnu_debuglink " err))
    | .ok data =>
      if data.length < 6 then
        (w, "", Stat.zero, some (Error.errorf ".gnu_debuglink is too small"))
      else
        let debugLink := cString data
        let fsDebugFile := path.Join [path.Dir elfFilePath, debugLink]
        match os.Stat w (path.Join [fs, fsDebugFile]) with
        | (w, .ok fileInfo) => (w, fsDebugFile, statFromFileInfo fileInfo, none)
        | (w, .error _) =>
          let fsDebugFile := path.Join [path.Dir elfFilePath, ".debug", debugLink]
          match os.Stat w (path.Join [fs, fsDebugFile]) with
          | (w, .ok fileInfo) => (w, fsDebugFile, statFromFileInfo fileInfo, none)
          | (w, .error _) =>
            let fsDebugFile := path.Join ["/usr/lib/debug", path.Dir elfFilePath, debugLink]
            match os.Stat w (path.Join [fs, fsDebugFile]) with
            | (w, .ok fileInfo) => (w, fsDebugFile, statFromFileInfo fileInfo, none)
            | (w, .error _) => (w, "", Stat.zero, none)

/-- Method `findDebugFile`: the build-id path first, then the debug link. -/
def ElfTable.findDebugFile (w : World) (t : ElfTable) (buildID : String)
    (elfFile : MMapedElfFile) : World × String × Stat :=
  match t.findDebugFileWithBuildID w buildID with
  | (w, debugFile, fileInfo) =>
    if debugFile != "" then
      (w, debugFile, fileInfo)
    else
      match t.findDebugFileWithDebugLink w elfFile with
      | (w, debugFile, fileInfo, _) => (w, debugFile, fileInfo)

/-! ## Loading and resolving -/

/-- The branch of `load` taken when a debug file was found, with the deferred
close of `debugMe` at its end. -/
def ElfTable.loadDebugFile (w : World) (t : ElfTable) (buildID : String)
    (debugFilePath : String) (debugFileStat : Stat) : World × ElfTable :=
  match ElfCache.GetSymbolsByStat w debugFileStat with
  | (w, some symbols) => (w, { t with table := symbols })
  | (w, none) =>
    match NewMMapedElfFile w (path.Join [t.fs, debugFilePath]) with
    | (w, .error err) => (w, { t with err := some err })
    | (w, .ok debugMe) =>
      let (w, t) : World × ElfTable :=
        match debugMe.readSymbols w with
        | (w, some _) => (w, { t with err := none })
        | (w, none) =>
          let t := { t with table := SymbolNameResolver.elf debugMe }
          let w := ElfCache.CacheByBuildID w buildID debugMe
          let w := ElfCache.CacheByStat w debugFileStat debugMe
          (w, t)
      if t.table.isNot debugMe then (debugMe.close w, t) else (w, t)

/-- The part of `load` after the reader `me` was opened, up to its return. -/
def ElfTable.loadOpened (w : World) (t : ElfTable) (me : MMapedElfFile) : World × ElfTable :=
  match t.findBase me with
  | (false, t) => (w, { t with err := some Error.errElfBaseNotFound })
  | (true, t) =>
    let (buildID, _) := getBuildID me
    match ElfCache.GetSymbolsByBuildID w buildID with
    | (w, some symbols) => (w, { t with table := symbols })
    | (w, none) =>
      match os.Stat w (path.Join [t.fs, t.elfFilePath]) with
      | (w, .error err) => (w, { t with err := some err })
      | (w, .ok fileInfo) =>
        match ElfCache.GetSymbolsByStat w (statFromFileInfo fileInfo) with
        | (w, some symbols) => (w, { t with table := symbols })
        | (w, none) =>
          match t.findDebugFile w buildID me with
          | (w, debugFilePath, debugFileStat) =>
            if debugFilePath != "" then
              t.loadDebugFile w buildID debugFilePath debugFileStat
            else
              match me.readSymbols w with
              | (w, some err) => (w, { t with err := some err })
              | (w, none) =>
                let w := ElfCache.CacheByBuildID w buildID me
                let w := ElfCache.CacheByStat w (statFromFileInfo fileInfo) me
                (w, { t with table := SymbolNameResolver.elf me })

/-- Method `load`. -/
def ElfTable.load (w : World) (t : ElfTable) : World × ElfTable :=
  if t.loaded then
    (w, t)
  else
    let t := { t with loaded := true }
    let fsElfFilePath := path.Join [t.fs, t.elfFilePath]
    match NewMMapedElfFile w fsElfFilePath with
    | (w, .error err) => (w, { t with err := some err })
    | (w, .ok me) =>
      match t.loadOpened w me with
      | (w, t) => if t.table.isNot me then (me.close w, t) else (w, t)

/-- Modelled from the spec: lookup in a symbol index, the name of the last entry
whose start is at most the address, and "unknown" when there is none. -/
def resolveIndex (index : List Sym) (addr : Nat) : String :=
  match (index.filter (fun s => decide (s.Start ≤ addr))).getLast? with
  | some s => s.Name
  | none => "unknown"

/-- Modelled from the spec: method `Resolve` of a resolver.  The placeholder
without symbols answers "unknown"; a reader looks the address up in the index
extracted from its symbol tables. -/
def SymbolNameResolver.Resolve (s : SymbolNameResolver) (addr : Nat) : String :=
  match s with
  | .noop => "unknown"
  | .elf r => resolveIndex (getELFSymbolsFromSymtab r.image.symtab r.image.dynsym) addr

/-- Method `(*ElfTable).Resolve`: the world and the table afterwards, and the
name. -/
def ElfTable.Resolve (w : World) (t : ElfTable) (pc : Nat) : World × ElfTable × String :=
  match t.load w with
  | (w, t) =>
    let pc := sub64 pc t.base
    (w, t, t.table.Resolve pc)

/-! ## Notions used to state the properties of the debug-file search -/

/-- The path exists in the world: `os.Stat` succeeds on it. -/
def World.fileExists (w : World) (fpath : String) : Bool :=
  match w.stats fpath with
  | .ok _ => true
  | .error _ => false

/-- The identity of the file at a path, the zero identity when `os.Stat` fails. -/
def World.fileIdentity (w : World) (fpath : String) : Stat :=
  match w.stats fpath with
  | .ok fileInfo => statFromFileInfo fileInfo
  | .error _ => Stat.zero

/-- The three debug-link candidates for a binary at `elfFilePath` and a link
name, in the order of the search. -/
def debugLinkCandidates (elfFilePath debugLink : String) : List String :=
  [ path.Join [path.Dir elfFilePath, debugLink],
    path.Join [path.Dir elfFilePath, ".debug", debugLink],
    path.Join ["/usr/lib/debug", path.Dir elfFilePath, debugLink] ]

/-! ## Notions used to state the properties of `load` -/

/-- The probes of the debug-file search: the effects it adds to an empty log. -/
def ElfTable.debugFileProbes (t : ElfTable) (w : World) (buildID : String)
    (elfFile : MMapedElfFile) : List Event :=
  (t.findDebugFile { w with log := [] } buildID elfFile).1.log

/-- The effects added to the log between the world `w` and a later world. -/
def World.newEvents (w later : World) : List Event := later.log.drop w.log.length

/-- The resolver is the reader object with identity `ptr`. -/
def SymbolNameResolver.isReader (s : SymbolNameResolver) (ptr : Nat) : Prop :=
  match s with
  | .noop => False
  | .elf r => r.ptr = ptr

/-- Every reader held by the cache was opened before: its identity is below the
next one to be handed out. -/
def World.CacheIsOlder (w : World) : Prop :=
  (∀ k r, (k, SymbolNameResolver.elf r) ∈ w.cache.BuildIDCache → r.ptr < w.nextPtr) ∧
    (∀ k r, (k, SymbolNameResolver.elf r) ∈ w.cache.SameFileCache → r.ptr < w.nextPtr)

/-- A sequence of calls of `Resolve`, one for each address of the list: the
world and the table after the last call. -/
def ElfTable.resolveAll (w : World) (t : ElfTable) : List Nat → World × ElfTable
  | [] => (w, t)
  | pc :: rest =>
    match t.Resolve w pc with
    | (w, t, _) => ElfTable.resolveAll w t rest

/-- What one run of `load` from the world `w` did, in terms of the effects `ev`
it added, the next reader identity `n` and the cache `c` it left, and the
resolver `tbl` of the table: the readers it opened are those with identities
from `w.nextPtr` up to `n`; such a reader is closed exactly when it is not the
table's resolver; only opened readers are closed; a reader is stored only when
it is the table's resolver, and is then found under a non-empty key; the cache
still holds older readers only. -/
def LoadOutcome (w : World) (ev : List Event) (n : Nat) (c : ElfCache)
    (tbl : SymbolNameResolver) : Prop :=
  w.nextPtr ≤ n ∧
    (∀ p, w.nextPtr ≤ p → p < n → (Event.close p ∈ ev ↔ ¬ tbl.isReader p)) ∧
    (∀ p, Event.close p ∈ ev → w.nextPtr ≤ p ∧ p < n) ∧
    (∀ k p, Event.cacheByBuildID k p ∈ ev →
      tbl.isReader p ∧ w.nextPtr ≤ p ∧ p < n ∧
        (k.data ≠ [] → c.BuildIDCache.lookup k = some tbl)) ∧
    (∀ k p, Event.cacheByStat k p ∈ ev →
      tbl.isReader p ∧ w.nextPtr ≤ p ∧ p < n ∧
        (k ≠ Stat.zero → c.SameFileCache.lookup k = some tbl)) ∧
    ({ w with nextPtr := n, cache := c } : World).CacheIsOlder

/-- The effect is a store into the cache. -/
def Event.isStore : Event → Bool
  | .cacheByBuildID _ _ => true
  | .cacheByStat _ _ => true
  | _ => false

/-! ## Sample inputs -/

/-- A note payload: name size 4, descriptor size 4, type 3, `GNU`, and the
descriptor bytes `DE AD BE EF`. -/
def sampleNote : List Byte :=
  [4, 0, 0, 0, 4, 0, 0, 0, 3, 0, 0, 0, 0x47, 0x4e, 0x55, 0, 0xde, 0xad, 0xbe, 0xef]

/-- A debug-link payload: the name `foo.debug`, padding and four bytes of CRC. -/
def sampleDebugLink : List Byte :=
  [0x66, 0x6f, 0x6f, 0x2e, 0x64, 0x65, 0x62, 0x75, 0x67, 0, 0, 0, 1, 2, 3, 4]

/-- A shared object: a read-only segment, two executable segments at file
offset `0x1000`, a build-id note and a debug link. -/
def sampleImage : ElfImage :=
  { FileHeader := { Typ := ET_DYN }
    Progs := [ { Typ := PT_LOAD, Flags := 4, Off := 0, Vaddr := 0 },
               { Typ := PT_LOAD, Flags := 5, Off := 0x1000, Vaddr := 0x2000 },
               { Typ := PT_LOAD, Flags := 5, Off := 0x1000, Vaddr := 0x9000 } ]
    Sections := [ { Name := ".note.gnu.build-id", data := .ok sampleNote },
                  { Name := ".gnu_debuglink", data := .ok sampleDebugLink } ]
    symtab := [ { Name := "main", Info := 0x12, Value := 0x2100 },
                { Name := "data", Info := 0x11, Value := 0x4000 } ]
    dynsym := [ { Name := "foo", Info := 0x12, Value := 0x2000 },
                { Name := "undef", Info := 0x12, Value := 0 } ]
    readSymbolsErr := none }

/-- A reader of the sample shared object. -/
def sampleReader : MMapedElfFile := { ptr := 0, image := sampleImage }

/-- The same file with header type `ET_EXEC`. -/
def sampleExecReader : MMapedElfFile :=
  { ptr := 0, image := { sampleImage with FileHeader := { Typ := ET_EXEC } } }

/-- A reader whose build-id note is too short. -/
def sampleShortNoteReader : MMapedElfFile :=
  { ptr := 0, image := { sampleImage with
      Sections := [ { Name := ".note.gnu.build-id", data := .ok (sampleNote.take 12) } ] } }

/-- A table for a mapping of the sample object at file offset `0x1000`. -/
def sampleTable : ElfTable :=
  NewElfTable { StartAddr := 0x7f0000001000, Offset := 0x1000 } "/proc/42/root" "/usr/lib/libfoo.so"

/-- A table for a mapping at a file offset that no segment has. -/
def sampleUnmatchedTable : ElfTable :=
  NewElfTable { StartAddr := 0x7f0000001000, Offset := 0x5000 } "/proc/42/root" "/usr/lib/libfoo.so"

/-- A world in which every path opens to the sample object and no path can be
stat-ed, with an empty cache. -/
def sampleWorld : World :=
  { files := fun _ => .ok sampleImage
    stats := fun _ => .error (Error.os "no such file or directory")
    cache := { BuildIDCache := [], SameFileCache := [] }
    nextPtr := 7
    log := [] }

/-- A world in which the build-id path of `deadbeef` and the candidate in the
`.debug` subdirectory both exist under `/proc/42/root`. -/
def sampleDebugWorld : World :=
  { sampleWorld with
    stats := fun p =>
      if p = "/proc/42/root/usr/lib/debug/.build-id/de/adbeef.debug" then
        .ok { dev := 1, ino := 10, size := 100, modTime := 1000 }
      else if p = "/proc/42/root/usr/lib/.debug/foo.debug" then
        .ok { dev := 1, ino := 20, size := 200, modTime := 2000 }
      else .error (Error.os "no such file or directory") }

/-- A world in which only the candidates in the `.debug` subdirectory and
under `/usr/lib/debug` exist under `/proc/42/root`. -/
def sampleLinkWorld : World :=
  { sampleWorld with
    stats := fun p =>
      if p = "/proc/42/root/usr/lib/.debug/foo.debug" then
        .ok { dev := 1, ino := 20, size := 200, modTime := 2000 }
      else if p = "/proc/42/root/usr/lib/debug/usr/lib/foo.debug" then
        .ok { dev := 1, ino := 30, size := 300, modTime := 3000 }
      else .error (Error.os "no such file or directory") }

/-- A build-id note with the descriptor bytes `AB C1 23`. -/
def scenarioNote : List Byte :=
  [4, 0, 0, 0, 3, 0, 0, 0, 3, 0, 0, 0, 0x47, 0x4e, 0x55, 0, 0xab, 0xc1, 0x23]

/-- A stripped shared object with build-id `abc123`: one executable segment at
file offset 0 and virtual address 0, no symbols. -/
def scenarioImage : ElfImage :=
  { FileHeader := { Typ := ET_DYN }
    Progs := [ { Typ := PT_LOAD, Flags := 5, Off := 0, Vaddr := 0 } ]
    Sections := [ { Name := ".note.gnu.build-id", data := .ok scenarioNote } ]
    symtab := []
    dynsym := []
    readSymbolsErr := none }

/-- The debug file of the stripped object: the one function symbol `foo` at
`0x1000`. -/
def scenarioDebugImage : ElfImage :=
  { scenarioImage with symtab := [ { Name := "foo", Info := 0x12, Value := 0x1000 } ] }

/-- A world with the stripped object at `/usr/lib/libbar.so` and its debug file
at the build-id path, both under `/proc/42/root`, and an empty cache. -/
def scenarioWorld : World :=
  { files := fun p =>
      if p = "/proc/42/root/usr/lib/debug/.build-id/ab/c123.debug" then .ok scenarioDebugImage
      else if p = "/proc/42/root/usr/lib/libbar.so" then .ok scenarioImage
      else .error (Error.os "no such file or directory")
    stats := fun p =>
      if p = "/proc/42/root/usr/lib/debug/.build-id/ab/c123.debug" then
        .ok { dev := 1, ino := 40, size := 400, modTime := 4000 }
      else if p = "/proc/42/root/usr/lib/libbar.so" then
        .ok { dev := 1, ino := 50, size := 500, modTime := 5000 }
      else .error (Error.os "no such file or directory")
    cache := { BuildIDCache := [], SameFileCache := [] }
    nextPtr := 7
    log := [] }

/-- The table of the mapping of the stripped object at `0x7f0000001000`, file
offset 0. -/
def scenarioTable : ElfTable :=
  NewElfTable { StartAddr := 0x7f0000001000, Offset := 0 } "/proc/42/root" "/usr/lib/libbar.so"

/-- The same world with a debug file whose symbols cannot be read. -/
def brokenDebugWorld : World :=
  { scenarioWorld with
    files := fun p =>
      if p = "/proc/42/root/usr/lib/debug/.build-id/ab/c123.debug" then
        .ok { scenarioDebugImage with
              readSymbolsErr := some (Error.errorf "reading symbols failed") }
      else if p = "/proc/42/root/usr/lib/libbar.so" then .ok scenarioImage
      else .error (Error.os "no such file or directory") }

/-- The table of a second mapping of the stripped object, at another address. -/
def scenarioSecondTable : ElfTable :=
  NewElfTable { StartAddr := 0x7f0000400000, Offset := 0 } "/proc/42/root" "/usr/lib/libbar.so"

/-- A world in which the stripped object has no debug file. -/
def scenarioNoDebugWorld : World :=
  { scenarioWorld with
    stats := fun p =>
      if p = "/proc/42/root/usr/lib/libbar.so" then
        .ok { dev := 1, ino := 50, size := 500, modTime := 5000 }
      else .error (Error.os "no such file or directory") }

/-! ## Properties of the load base -/

theorem findBaseLoop_skip (m : ProcMap) (t : ElfTable) (pre rest : List ProgHeader)
    (hpre : ∀ q ∈ pre, ¬ q.Matches m) :
    findBaseLoop m t (pre ++ rest) = findBaseLoop m t rest := by
  induction pre with
  | nil => rfl
  | cons q qs ih =>
    have hq : ¬ q.Matches m := hpre q (List.mem_cons_self _ _)
    have hqs : ∀ r ∈ qs, ¬ r.Matches m := fun r hr => hpre r (List.mem_cons_of_mem _ hr)
    simp only [List.cons_append, findBaseLoop]
    by_cases h1 : (q.Typ == PT_LOAD && (q.Flags &&& PF_X != 0)) = true
    · by_cases h2 : (uint64 m.Offset == q.Off) = true
      · exfalso
        apply hq
        simp only [Bool.and_eq_true, beq_iff_eq, bne_iff_ne] at h1 h2
        exact ⟨h1.1, h1.2, h2.symm⟩
      · simp only [h1, h2, if_true]
        exact ih hqs
    · simp only [h1]
      exact ih hqs

theorem findBaseLoop_hit (m : ProcMap) (t : ElfTable) (p : ProgHeader) (rest : List ProgHeader)
    (hp : p.Matches m) :
    findBaseLoop m t (p :: rest) = (true, { t with base := sub64 m.StartAddr p.Vaddr }) := by
  obtain ⟨h1, h2, h3⟩ := hp
  simp [findBaseLoop, h1, h2, h3]

theorem findBaseLoop_filter (m : ProcMap) (t : ElfTable) (ps : List ProgHeader) :
    findBaseLoop m t (ps.filter (fun q => decide (q.Matches m))) = findBaseLoop m t ps := by
  induction ps with
  | nil => rfl
  | cons q qs ih =>
    by_cases hq : q.Matches m
    · rw [List.filter_cons_of_pos (by simpa using hq), findBaseLoop_hit m t q _ hq,
        findBaseLoop_hit m t q _ hq]
    · rw [List.filter_cons_of_neg (by simpa using hq), ih]
      have hsk := findBaseLoop_skip m t [q] qs (fun r hr => by
        rw [List.mem_singleton.mp hr]; exact hq)
      exact hsk.symm

theorem exists_first_match (m : ProcMap) (ps : List ProgHeader)
    (h : ∃ q ∈ ps, q.Matches m) :
    ∃ pre p post, ps = pre ++ p :: post ∧ (∀ q ∈ pre, ¬ q.Matches m) ∧ p.Matches m := by
  induction ps with
  | nil => simp at h
  | cons q qs ih =>
    by_cases hq : q.Matches m
    · exact ⟨[], q, qs, rfl, by simp, hq⟩
    · have h' : ∃ r ∈ qs, r.Matches m := by
        obtain ⟨r, hr, hm⟩ := h
        rcases List.mem_cons.mp hr with rfl | hr
        · exact absurd hm hq
        · exact ⟨r, hr, hm⟩
      obtain ⟨pre, p, post, heq, hpre, hp⟩ := ih h'
      refine ⟨q :: pre, p, post, by simp [heq], ?_, hp⟩
      intro r hr
      rcases List.mem_cons.mp hr with rfl | hr
      · exact hq
      · exact hpre r hr

theorem sub64_wraps (a b : Nat) :
    sub64 a b < 2 ^ 64 ∧ (sub64 a b + b) % 2 ^ 64 = a % 2 ^ 64 := by
  unfold sub64
  norm_num
  omega

/-- C1: for a position-independent file with a loadable, executable program
header at the mapping's file offset, `findBase` answers true and sets `base` to
the mapping's start minus the virtual address of the first such header, that
is, to the 64-bit value which added to that address gives the start modulo
`2 ^ 64`; the headers before it are skipped and dropping every non-matching
header changes nothing. -/
theorem findBase_pie_first_match (t : ElfTable) (e : MMapedElfFile)
    (hpie : e.FileHeader.Typ ≠ ET_EXEC)
    (hex : ∃ q ∈ e.Progs, q.Matches t.procMap) :
    (∃ pre p post, e.Progs = pre ++ p :: post ∧ (∀ q ∈ pre, ¬ q.Matches t.procMap) ∧
        p.Matches t.procMap ∧
        t.findBase e = (true, { t with base := sub64 t.procMap.StartAddr p.Vaddr }) ∧
        (t.findBase e).2.base < 2 ^ 64 ∧
        ((t.findBase e).2.base + p.Vaddr) % 2 ^ 64 = t.procMap.StartAddr % 2 ^ 64) ∧
      t.findBase e =
        findBaseLoop t.procMap t (e.Progs.filter (fun q => decide (q.Matches t.procMap))) := by
  have hty : (e.FileHeader.Typ == ET_EXEC) = false := by simpa using hpie
  constructor
  · obtain ⟨pre, p, post, heq, hpre, hp⟩ := exists_first_match t.procMap e.Progs hex
    have hres : t.findBase e =
        (true, { t with base := sub64 t.procMap.StartAddr p.Vaddr }) := by
      simp only [ElfTable.findBase, hty, heq]
      rw [findBaseLoop_skip _ _ _ _ hpre, findBaseLoop_hit _ _ _ _ hp]
      rfl
    refine ⟨pre, p, post, heq, hpre, hp, hres, ?_, ?_⟩
    · rw [hres]
      exact (sub64_wraps _ _).1
    · rw [hres]
      exact (sub64_wraps _ _).2
  · simp only [ElfTable.findBase, hty]
    rw [findBaseLoop_filter]
    rfl

/-- C2: for a file of type `ET_EXEC`, `findBase` answers true and sets `base`
to 0, whatever the program headers and the mapping are. -/
theorem findBase_exec (t : ElfTable) (e : MMapedElfFile)
    (hexec : e.FileHeader.Typ = ET_EXEC) :
    t.findBase e = (true, { t with base := 0 }) := by
  simp [ElfTable.findBase, hexec]

theorem findBaseLoop_none (m : ProcMap) (t : ElfTable) (ps : List ProgHeader)
    (hnone : ∀ q ∈ ps, ¬ q.Matches m) : findBaseLoop m t ps = (false, t) := by
  have h := findBaseLoop_skip m t ps [] hnone
  rw [List.append_nil] at h
  rw [h]
  rfl

/-! ## Properties of the build identifier -/

theorem hextable_digit (k : Nat) (hk : k < 16) :
    hexValue (hextable.getD k '0') = k ∧ isLowerHex (hextable.getD k '0') := by
  interval_cases k <;> exact ⟨by decide, by unfold isLowerHex; decide⟩

theorem hexEncode_length (bs : List Byte) : (hexEncode bs).length = 2 * bs.length := by
  induction bs with
  | nil => rfl
  | cons b bs ih => simp only [hexEncode, List.length_cons, ih]; omega

theorem hexEncode_isLowerHex (bs : List Byte) : ∀ c ∈ hexEncode bs, isLowerHex c := by
  induction bs with
  | nil => intro c hc; simp [hexEncode] at hc
  | cons b bs ih =>
    intro c hc
    simp only [hexEncode, List.mem_cons] at hc
    rcases hc with rfl | rfl | hc
    · refine (hextable_digit _ ?_).2
      rw [Nat.shiftRight_eq_div_pow]
      have := b.isLt
      omega
    · refine (hextable_digit _ ?_).2
      have h15 : b.val &&& 0x0f ≤ 0x0f := Nat.and_le_right
      omega
    · exact ih c hc

theorem hexEncode_pair (bs : List Byte) (i : Nat) (b : Byte) (h : bs[i]? = some b) :
    ∃ c1 c2, (hexEncode bs)[2 * i]? = some c1 ∧ (hexEncode bs)[2 * i + 1]? = some c2 ∧
      hexValue c1 * 16 + hexValue c2 = b.val := by
  induction bs generalizing i with
  | nil => simp at h
  | cons x xs ih =>
    cases i with
    | zero =>
      simp only [List.getElem?_cons_zero, Option.some.injEq] at h
      subst h
      refine ⟨hextable.getD (x.val >>> 4) '0', hextable.getD (x.val &&& 0x0f) '0',
        by simp [hexEncode], by simp [hexEncode], ?_⟩
      have hlt := x.isLt
      have hhi : x.val >>> 4 < 16 := by rw [Nat.shiftRight_eq_div_pow]; omega
      have hlo : x.val &&& 0x0f = x.val % 16 := Nat.and_pow_two_sub_one_eq_mod x.val 4
      rw [(hextable_digit _ hhi).1, hlo, (hextable_digit _ (Nat.mod_lt _ (by norm_num))).1,
        Nat.shiftRight_eq_div_pow]
      omega
    | succ j =>
      simp only [List.getElem?_cons_succ] at h
      obtain ⟨c1, c2, h1, h2, h3⟩ := ih j h
      refine ⟨c1, c2, ?_, ?_, h3⟩
      · have : 2 * (j + 1) = (2 * j) + 1 + 1 := by omega
        rw [this]
        simpa [hexEncode] using h1
      · have : 2 * (j + 1) + 1 = (2 * j + 1) + 1 + 1 := by omega
        rw [this]
        simpa [hexEncode] using h2

theorem getBuildID_ok (e : MMapedElfFile) (s : ElfSection) (data : List Byte)
    (hsec : e.Section ".note.gnu.build-id" = some s) (hdata : e.SectionData s = .ok data)
    (hlen : 16 ≤ data.length) (hgnu : byteSlice data 12 15 = gnuMarker) :
    getBuildID e = (hex.EncodeToString (data.drop 16), none) := by
  have h1 : ¬ data.length < 16 := by omega
  simp [getBuildID, hsec, hdata, h1, hgnu]

/-- C4: for a note payload of length `n ≥ 16` carrying `GNU` at offset 12,
`getBuildID` returns, without error, the hex encoding of the bytes from offset
16 on: `2 * (n - 16)` characters, all in `[0-9a-f]`, the pair at positions
`2 * i` and `2 * i + 1` holding the high and the low nibble of byte `16 + i`. -/
theorem getBuildID_hex (e : MMapedElfFile) (s : ElfSection) (data : List Byte)
    (hsec : e.Section ".note.gnu.build-id" = some s) (hdata : e.SectionData s = .ok data)
    (hlen : 16 ≤ data.length) (hgnu : byteSlice data 12 15 = gnuMarker) :
    (getBuildID e).2 = none ∧
      (getBuildID e).1 = hex.EncodeToString (data.drop 16) ∧
      (getBuildID e).1.length = 2 * (data.length - 16) ∧
      (∀ c ∈ (getBuildID e).1.data, isLowerHex c) ∧
      ∀ i b, data[16 + i]? = some b →
        ∃ c1 c2, (getBuildID e).1.data[2 * i]? = some c1 ∧
          (getBuildID e).1.data[2 * i + 1]? = some c2 ∧
          hexValue c1 * 16 + hexValue c2 = b.val := by
  rw [getBuildID_ok e s data hsec hdata hlen hgnu]
  refine ⟨rfl, rfl, ?_, ?_, ?_⟩
  · show (hexEncode (data.drop 16)).length = _
    rw [hexEncode_length, List.length_drop]
  · exact hexEncode_isLowerHex _
  · intro i b hb
    apply hexEncode_pair
    rw [List.getElem?_drop]
    exact hb

/-- C5: `getBuildID` gives no identifier for a bad note: without the section it
fails with `errNoBuildID`; with unreadable data, a payload shorter than 16
bytes, or one without `GNU` at offset 12, it fails with an error; the returned
string is empty in each case. -/
theorem getBuildID_bad_note (e : MMapedElfFile)
    (hbad : e.Section ".note.gnu.build-id" = none ∨
      ∃ s, e.Section ".note.gnu.build-id" = some s ∧
        ((∃ err, e.SectionData s = .error err) ∨
          ∃ data, e.SectionData s = .ok data ∧
            (data.length < 16 ∨ byteSlice data 12 15 ≠ gnuMarker))) :
    (getBuildID e).1 = "" ∧ (getBuildID e).2 ≠ none ∧
      (e.Section ".note.gnu.build-id" = none → (getBuildID e).2 = some Error.errNoBuildID) := by
  rcases hbad with hnone | ⟨s, hs, ⟨err, herr⟩ | ⟨data, hdata, hshort | hmark⟩⟩
  · simp [getBuildID, hnone]
  · simp [getBuildID, hs, herr]
  · simp [getBuildID, hs, hdata, hshort]
  · have hm : ¬ (gnuMarker = byteSlice data 12 15) := fun h => hmark h.symm
    by_cases hl : data.length < 16
    · simp [getBuildID, hs, hdata, hl]
    · simp [getBuildID, hs, hdata, hl, hm]

/-! ## Properties of `load` when the base is not found -/

theorem findBase_none (t : ElfTable) (e : MMapedElfFile) (hpie : e.FileHeader.Typ ≠ ET_EXEC)
    (hnone : ∀ q ∈ e.Progs, ¬ q.Matches t.procMap) : t.findBase e = (false, t) := by
  have hty : (e.FileHeader.Typ == ET_EXEC) = false := by simpa using hpie
  simp only [ElfTable.findBase, hty]
  exact findBaseLoop_none _ _ _ hnone

/-- C3: for a position-independent file without a loadable, executable program
header at the mapping's file offset, `load` of a new table ends with
`loaded = true`, `err = errElfBaseNotFound`, `base` unchanged and `table` still
the resolver without symbols; the only effects are the open and the close of
the reader (no cache lookup, no stat, no symbol read, no store); every later
`Resolve` answers "unknown" and changes neither the world nor the table. -/
theorem load_base_not_found (w : World) (procMap : ProcMap) (fs elfFilePath : String)
    (img : ElfImage)
    (hopen : w.files (path.Join [fs, elfFilePath]) = .ok img)
    (hpie : img.FileHeader.Typ ≠ ET_EXEC)
    (hnone : ∀ q ∈ img.Progs, ¬ q.Matches procMap) :
    ((NewElfTable procMap fs elfFilePath).load w).2 =
        { NewElfTable procMap fs elfFilePath with
          loaded := true, err := some Error.errElfBaseNotFound } ∧
      ((NewElfTable procMap fs elfFilePath).load w).2.base =
        (NewElfTable procMap fs elfFilePath).base ∧
      ((NewElfTable procMap fs elfFilePath).load w).2.table = SymbolNameResolver.noop ∧
      ((NewElfTable procMap fs elfFilePath).load w).1.log =
        w.log ++ [Event.openFile (path.Join [fs, elfFilePath]), Event.close w.nextPtr] ∧
      ((NewElfTable procMap fs elfFilePath).load w).1.cache = w.cache ∧
      ∀ pc, (((NewElfTable procMap fs elfFilePath).load w).2).Resolve
          ((NewElfTable procMap fs elfFilePath).load w).1 pc =
        (((NewElfTable procMap fs elfFilePath).load w).1,
          ((NewElfTable procMap fs elfFilePath).load w).2, "unknown") := by
  have hfb : ({ NewElfTable procMap fs elfFilePath with loaded := true } : ElfTable).findBase
      { ptr := w.nextPtr, image := img } =
      (false, { NewElfTable procMap fs elfFilePath with loaded := true }) :=
    findBase_none _ _ hpie hnone
  have hload : (NewElfTable procMap fs elfFilePath).load w =
      ({ w with nextPtr := w.nextPtr + 1
                log := w.log ++ [Event.openFile (path.Join [fs, elfFilePath]),
                  Event.close w.nextPtr] },
       { NewElfTable procMap fs elfFilePath with
          loaded := true, err := some Error.errElfBaseNotFound }) := by
    have hfb2 := hfb
    simp only [NewElfTable] at hfb2
    simp [ElfTable.load, NewElfTable, NewMMapedElfFile, World.emit, hopen, ElfTable.loadOpened,
      hfb2, SymbolNameResolver.isNot, MMapedElfFile.close]
  rw [hload]
  refine ⟨rfl, rfl, rfl, rfl, rfl, ?_⟩
  intro pc
  simp [ElfTable.Resolve, ElfTable.load, NewElfTable, SymbolNameResolver.Resolve]

/-! ## Properties of the debug-file search -/

theorem buildIDDebugFile_ne_empty (buildID : String) : (buildIDDebugFile buildID != "") = true := by
  have h : buildIDDebugFile buildID ≠ "" := by
    intro h
    have hl := congrArg String.length h
    simp only [buildIDDebugFile, String.length_append] at hl
    have h25 : "/usr/lib/debug/.build-id/".length = 25 := by decide
    have h0 : "".length = 0 := rfl
    omega
  simpa using h

theorem findDebugFileWithBuildID_hit (w : World) (t : ElfTable) (buildID : String)
    (fileInfo : FileInfo) (hlen : 3 ≤ buildID.length)
    (hstat : w.stats (path.Join [t.fs, buildIDDebugFile buildID]) = .ok fileInfo) :
    t.findDebugFileWithBuildID w buildID =
      (w.emit (Event.stat (path.Join [t.fs, buildIDDebugFile buildID])),
        buildIDDebugFile buildID, statFromFileInfo fileInfo) := by
  have h3 : ¬ buildID.length < 3 := by omega
  simp [ElfTable.findDebugFileWithBuildID, h3, os.Stat, World.emit, hstat]

theorem findDebugFileWithBuildID_miss (w : World) (t : ElfTable) (buildID : String)
    (hmiss : buildID.length < 3 ∨
      w.fileExists (path.Join [t.fs, buildIDDebugFile buildID]) = false) :
    (t.findDebugFileWithBuildID w buildID).2 = ("", Stat.zero) ∧
      (t.findDebugFileWithBuildID w buildID).1.stats = w.stats := by
  by_cases h3 : buildID.length < 3
  · simp [ElfTable.findDebugFileWithBuildID, h3]
  · rcases hmiss with h | h
    · exact absurd h h3
    · unfold World.fileExists at h
      cases hst : w.stats (path.Join [t.fs, buildIDDebugFile buildID]) with
      | ok fi => rw [hst] at h; simp at h
      | error err => simp [ElfTable.findDebugFileWithBuildID, h3, os.Stat, World.emit, hst]

/-- C6: for a build-id of length at least 3 whose build-id path exists under
`fs`, `findDebugFile` returns `/usr/lib/debug/.build-id/<id[0:2]>/<id[2:]>.debug`
(without `fs`) and the identity of that file, after this one probe, whatever
the reader's `.gnu_debuglink` holds and whichever other paths exist. -/
theorem findDebugFile_build_id_first (w : World) (t : ElfTable) (buildID : String)
    (elfFile : MMapedElfFile) (fileInfo : FileInfo) (hlen : 3 ≤ buildID.length)
    (hstat : w.stats (path.Join [t.fs,
      "/usr/lib/debug/.build-id/" ++ String.mk (buildID.data.take 2) ++ "/" ++
        String.mk (buildID.data.drop 2) ++ ".debug"]) = .ok fileInfo) :
    t.findDebugFile w buildID elfFile =
      (w.emit (Event.stat (path.Join [t.fs,
          "/usr/lib/debug/.build-id/" ++ String.mk (buildID.data.take 2) ++ "/" ++
            String.mk (buildID.data.drop 2) ++ ".debug"])),
        "/usr/lib/debug/.build-id/" ++ String.mk (buildID.data.take 2) ++ "/" ++
          String.mk (buildID.data.drop 2) ++ ".debug",
        statFromFileInfo fileInfo) := by
  have hne := buildIDDebugFile_ne_empty buildID
  have hhit := findDebugFileWithBuildID_hit w t buildID fileInfo hlen hstat
  unfold ElfTable.findDebugFile
  rw [hhit]
  simp only [hne, if_true]
  rfl

theorem findDebugFileWithDebugLink_order (w : World) (t : ElfTable) (elfFile : MMapedElfFile)
    (s : ElfSection) (data : List Byte)
    (hsec : elfFile.Section ".gnu_debuglink" = some s) (hdata : elfFile.SectionData s = .ok data)
    (hlen : 6 ≤ data.length) :
    ((t.findDebugFileWithDebugLink w elfFile).2.1, (t.findDebugFileWithDebugLink w elfFile).2.2.1) =
      match (debugLinkCandidates t.elfFilePath (cString data)).find?
          (fun c => w.fileExists (path.Join [t.fs, c])) with
      | some c => (c, w.fileIdentity (path.Join [t.fs, c]))
      | none => ("", Stat.zero) := by
  have h6 : ¬ data.length < 6 := by omega
  cases h1 : w.stats (path.Join [t.fs, path.Join [path.Dir t.elfFilePath, cString data]]) with
  | ok fi =>
    simp [ElfTable.findDebugFileWithDebugLink, hsec, hdata, h6, os.Stat, World.emit,
      debugLinkCandidates, List.find?, World.fileExists, World.fileIdentity, h1]
  | error e1 =>
    cases h2 : w.stats
        (path.Join [t.fs, path.Join [path.Dir t.elfFilePath, ".debug", cString data]]) with
    | ok fi =>
      simp [ElfTable.findDebugFileWithDebugLink, hsec, hdata, h6, os.Stat, World.emit,
        debugLinkCandidates, List.find?, World.fileExists, World.fileIdentity, h1, h2]
    | error e2 =>
      cases h3 : w.stats
          (path.Join [t.fs, path.Join ["/usr/lib/debug", path.Dir t.elfFilePath, cString data]]) with
      | ok fi =>
        simp [ElfTable.findDebugFileWithDebugLink, hsec, hdata, h6, os.Stat, World.emit,
          debugLinkCandidates, List.find?, World.fileExists, World.fileIdentity, h1, h2, h3]
      | error e3 =>
        simp [ElfTable.findDebugFileWithDebugLink, hsec, hdata, h6, os.Stat, World.emit,
          debugLinkCandidates, List.find?, World.fileExists, World.fileIdentity, h1, h2, h3]

/-- C7: when the build-id probe finds nothing and the reader has a readable
`.gnu_debuglink` payload of at least 6 bytes with the name `L = cString data`,
`findDebugFile` returns the first of `<dir>/L`, `<dir>/.debug/L`,
`/usr/lib/debug/<dir>/L` whose path under `fs` exists, with the identity of
that file, and the empty path with the zero identity when none exists. -/
theorem findDebugFile_debug_link_order (w : World) (t : ElfTable) (buildID : String)
    (elfFile : MMapedElfFile) (s : ElfSection) (data : List Byte)
    (hmiss : buildID.length < 3 ∨
      w.fileExists (path.Join [t.fs, buildIDDebugFile buildID]) = false)
    (hsec : elfFile.Section ".gnu_debuglink" = some s) (hdata : elfFile.SectionData s = .ok data)
    (hlen : 6 ≤ data.length) :
    (t.findDebugFile w buildID elfFile).2 =
      match [ path.Join [path.Dir t.elfFilePath, cString data],
              path.Join [path.Dir t.elfFilePath, ".debug", cString data],
              path.Join ["/usr/lib/debug", path.Dir t.elfFilePath, cString data] ].find?
          (fun c => w.fileExists (path.Join [t.fs, c])) with
      | some c => (c, w.fileIdentity (path.Join [t.fs, c]))
      | none => ("", Stat.zero) := by
  obtain ⟨hres, hstats⟩ := findDebugFileWithBuildID_miss w t buildID hmiss
  have hord := findDebugFileWithDebugLink_order (t.findDebugFileWithBuildID w buildID).1 t elfFile
    s data hsec hdata hlen
  simp only [World.fileExists, World.fileIdentity, hstats] at hord
  have hp : (t.findDebugFileWithBuildID w buildID).2.1 = "" := congrArg Prod.fst hres
  unfold ElfTable.findDebugFile
  simp only [hp, bne_self_eq_false, Bool.false_eq_true, if_false]
  exact hord

theorem char_eq_of_toNat_eq (x y : Char) (h : x.toNat = y.toNat) : x = y := by
  have hle1 : x ≤ y := Nat.le_of_eq h
  have hle2 : y ≤ x := Nat.le_of_eq h.symm
  exact le_antisymm hle1 hle2

theorem compareChars_neg_iff (a b : List Char) : compareChars a b < 0 ↔ a < b := by
  induction a generalizing b with
  | nil =>
    cases b with
    | nil =>
      constructor
      · intro h; simp [compareChars] at h
      · intro h; cases h
    | cons y ys =>
      constructor
      · intro _; exact List.Lex.nil
      · intro _; simp [compareChars]
  | cons x xs ih =>
    cases b with
    | nil =>
      constructor
      · intro h; simp [compareChars] at h
      · intro h; cases h
    | cons y ys =>
      by_cases hxy : x.toNat < y.toNat
      · constructor
        · intro _; exact List.Lex.rel hxy
        · intro _; simp [compareChars, hxy]
      · by_cases hyx : y.toNat < x.toNat
        · constructor
          · intro h; simp [compareChars, hxy, hyx] at h
          · intro h
            cases h with
            | cons _ => exact absurd hyx (lt_irrefl _)
            | rel h1 => exact absurd h1 hxy
        · have hrec : compareChars (x :: xs) (y :: ys) = compareChars xs ys := by
            simp [compareChars, hxy, hyx]
          have heq : x = y := char_eq_of_toNat_eq x y (by omega)
          subst heq
          rw [hrec, ih ys]
          constructor
          · intro h; exact List.Lex.cons h
          · intro h
            cases h with
            | cons h3 => exact h3
            | rel h1 => exact absurd h1 hxy

theorem strings_Compare_neg_iff (a b : String) : strings.Compare a b < 0 ↔ a < b := by
  rw [String.lt_iff_toList_lt]
  exact compareChars_neg_iff a.data b.data

theorem symLess_iff (a b : Sym) :
    symLess a b = true ↔ a.Start < b.Start ∨ (a.Start = b.Start ∧ a.Name < b.Name) := by
  unfold symLess
  by_cases h : a.Start = b.Start
  · simp [h, strings_Compare_neg_iff]
  · simp [h]

theorem symOrdered_iff_not_symLess (a b : Sym) : SymOrdered a b ↔ symLess b a = false := by
  rw [← Bool.not_eq_true, symLess_iff]
  unfold SymOrdered
  constructor
  · rintro ⟨h1, h2⟩ (h | ⟨h3, h4⟩)
    · omega
    · exact absurd (h2 h3.symm) (not_le.mpr h4)
  · intro h
    refine ⟨?_, ?_⟩
    · by_contra hc
      exact h (Or.inl (by omega))
    · intro he
      by_contra hc
      exact h (Or.inr ⟨he.symm, not_le.mp hc⟩)

theorem symOrdered_of_symLess (a b : Sym) (h : symLess a b = true) : SymOrdered a b := by
  rcases (symLess_iff a b).mp h with h1 | ⟨h1, h2⟩
  · exact ⟨by omega, fun he => by omega⟩
  · exact ⟨by omega, fun _ => le_of_lt h2⟩

theorem symOrdered_trans (a b c : Sym) (hab : SymOrdered a b) (hbc : SymOrdered b c) :
    SymOrdered a c := by
  obtain ⟨h1, h2⟩ := hab
  obtain ⟨h3, h4⟩ := hbc
  refine ⟨le_trans h1 h3, fun he => ?_⟩
  have e1 : a.Start = b.Start := by omega
  have e2 : b.Start = c.Start := by omega
  exact le_trans (h2 e1) (h4 e2)

theorem symOrdered_antisymm (a b : Sym) (hab : SymOrdered a b) (hba : SymOrdered b a) : a = b := by
  obtain ⟨h1, h2⟩ := hab
  obtain ⟨h3, h4⟩ := hba
  have e1 : a.Start = b.Start := by omega
  have e2 : a.Name = b.Name := le_antisymm (h2 e1) (h4 e1.symm)
  cases a
  cases b
  simp only [Sym.mk.injEq]
  exact ⟨e2, e1⟩

theorem insertLess_perm {α : Type} (less : α → α → Bool) (x : α) (l : List α) :
    (insertLess less x l).Perm (x :: l) := by
  induction l with
  | nil => exact List.Perm.refl _
  | cons y ys ih =>
    unfold insertLess
    by_cases h : less x y = true
    · simp only [h, if_true]
      exact List.Perm.refl _
    · simp only [h]
      exact (List.Perm.cons y ih).trans (List.Perm.swap x y ys)

theorem sortFunc_perm {α : Type} (less : α → α → Bool) (l : List α) :
    (slices.SortFunc less l).Perm l := by
  induction l with
  | nil => exact List.Perm.refl _
  | cons x xs ih =>
    unfold slices.SortFunc
    exact (insertLess_perm less x _).trans (List.Perm.cons x ih)

theorem insertLess_sorted (x : Sym) (l : List Sym) (hl : l.Pairwise SymOrdered) :
    (insertLess symLess x l).Pairwise SymOrdered := by
  induction l with
  | nil => simp [insertLess]
  | cons y ys ih =>
    obtain ⟨hy, hys⟩ := List.pairwise_cons.mp hl
    unfold insertLess
    by_cases h : symLess x y = true
    · simp only [h, if_true]
      refine List.pairwise_cons.mpr ⟨?_, hl⟩
      intro z hz
      rcases List.mem_cons.mp hz with rfl | hz
      · exact symOrdered_of_symLess _ _ h
      · exact symOrdered_trans _ _ _ (symOrdered_of_symLess _ _ h) (hy z hz)
    · simp only [h]
      refine List.pairwise_cons.mpr ⟨?_, ih hys⟩
      intro z hz
      have hz2 : z ∈ x :: ys := (insertLess_perm symLess x ys).subset hz
      rcases List.mem_cons.mp hz2 with rfl | hz2
      · exact (symOrdered_iff_not_symLess _ _).mpr (by simpa using h)
      · exact hy z hz2

theorem sortFunc_sorted (l : List Sym) : (slices.SortFunc symLess l).Pairwise SymOrdered := by
  induction l with
  | nil => exact List.Pairwise.nil
  | cons x xs ih =>
    unfold slices.SortFunc
    exact insertLess_sorted x _ ih

theorem sortFunc_unique (l sorted : List Sym) (hperm : sorted.Perm l)
    (hsorted : sorted.Pairwise SymOrdered) : sorted = slices.SortFunc symLess l :=
  @List.eq_of_perm_of_sorted Sym SymOrdered ⟨symOrdered_antisymm⟩ _ _
    (hperm.trans (sortFunc_perm symLess l).symm) hsorted (sortFunc_sorted l)

theorem addSymbols_eq (acc : List Sym) (l : List ElfSymbol) :
    addSymbols acc l = acc ++ (l.filter ElfSymbol.qualifies).map ElfSymbol.toSym := by
  induction l generalizing acc with
  | nil => simp [addSymbols]
  | cons x xs ih =>
    unfold addSymbols
    by_cases h : (x.Value != 0 && (x.Info &&& 0xf == STT_FUNC)) = true
    · have hq : x.qualifies = true := h
      rw [if_pos h, ih, List.filter_cons_of_pos hq]
      simp [ElfSymbol.toSym]
    · have hq : ¬ x.qualifies = true := h
      rw [if_neg h, ih, List.filter_cons_of_neg hq]

/-- C9: the list returned by `getELFSymbolsFromSymtab` is a permutation of the
entries of the static table followed by the dynamic table that have a non-zero
value and the type nibble `STT_FUNC`, each mapped to `Sym{Name, Start = Value}`;
it is empty when no entry qualifies. -/
theorem getELFSymbolsFromSymtab_filter (symtab dynsym : List ElfSymbol) :
    (getELFSymbolsFromSymtab symtab dynsym).Perm
        (((symtab ++ dynsym).filter
          (fun sym => decide (sym.Value ≠ 0 ∧ sym.Info &&& 0xf = STT_FUNC))).map
          (fun sym => { Name := sym.Name, Start := sym.Value })) ∧
      ((∀ sym ∈ symtab ++ dynsym, ¬ (sym.Value ≠ 0 ∧ sym.Info &&& 0xf = STT_FUNC)) →
        getELFSymbolsFromSymtab symtab dynsym = []) := by
  have hfun : (fun sym : ElfSymbol => decide (sym.Value ≠ 0 ∧ sym.Info &&& 0xf = STT_FUNC)) =
      ElfSymbol.qualifies := by
    funext sym
    by_cases h1 : sym.Value = 0 <;> by_cases h2 : sym.Info &&& 0xf = STT_FUNC <;>
      simp [ElfSymbol.qualifies, h1, h2]
  have hmap : (fun sym : ElfSymbol => ({ Name := sym.Name, Start := sym.Value } : Sym)) =
      ElfSymbol.toSym := rfl
  have hperm : (getELFSymbolsFromSymtab symtab dynsym).Perm
      (((symtab ++ dynsym).filter ElfSymbol.qualifies).map ElfSymbol.toSym) := by
    unfold getELFSymbolsFromSymtab
    simp only [addSymbols_eq, List.nil_append]
    rw [List.filter_append, List.map_append]
    exact sortFunc_perm _ _
  rw [hfun, hmap]
  refine ⟨hperm, ?_⟩
  intro hnone
  have hfil : (symtab ++ dynsym).filter ElfSymbol.qualifies = [] := by
    rw [List.filter_eq_nil_iff]
    intro sym hsym
    have := hnone sym hsym
    simpa [ElfSymbol.qualifies] using this
  rw [hfil] at hperm
  exact List.Perm.eq_nil hperm

/-- C10: the list returned by `getELFSymbolsFromSymtab` is sorted: for entries
`a` before `b`, `a.Start ≤ b.Start`, and `a.Name ≤ b.Name` when the starts are
equal. -/
theorem getELFSymbolsFromSymtab_sorted (symtab dynsym : List ElfSymbol) :
    (getELFSymbolsFromSymtab symtab dynsym).Pairwise
      (fun a b => a.Start ≤ b.Start ∧ (a.Start = b.Start → a.Name ≤ b.Name)) :=
  sortFunc_sorted _

/-! ## The properties at the sample inputs -/

theorem findBase_pie_first_match_witness :
    sampleReader.FileHeader.Typ ≠ ET_EXEC ∧
      (∃ q ∈ sampleReader.Progs, q.Matches sampleTable.procMap) ∧
      (sampleTable.findBase sampleReader).1 = true ∧
      (sampleTable.findBase sampleReader).2.base = 0x7effffffF000 := by
  have h1 : sampleReader.FileHeader.Typ ≠ ET_EXEC := by decide
  have h2 : ∃ q ∈ sampleReader.Progs, q.Matches sampleTable.procMap :=
    ⟨{ Typ := PT_LOAD, Flags := 5, Off := 0x1000, Vaddr := 0x9000 }, by decide, by decide⟩
  obtain ⟨⟨pre, p, post, _, _, _, hres, _, _⟩, _⟩ :=
    findBase_pie_first_match sampleTable sampleReader h1 h2
  refine ⟨h1, h2, ?_, by decide⟩
  rw [hres]

theorem findBase_exec_witness :
    sampleExecReader.FileHeader.Typ = ET_EXEC ∧
      (sampleUnmatchedTable.findBase sampleExecReader).1 = true ∧
      (sampleUnmatchedTable.findBase sampleExecReader).2.base = 0 := by
  have h := findBase_exec sampleUnmatchedTable sampleExecReader rfl
  refine ⟨rfl, ?_, ?_⟩ <;> rw [h]

theorem load_base_not_found_witness :
    ((sampleUnmatchedTable.load sampleWorld).2.loaded = true ∧
      (sampleUnmatchedTable.load sampleWorld).2.err = some Error.errElfBaseNotFound) ∧
      (sampleUnmatchedTable.load sampleWorld).1.log =
        [Event.openFile "/proc/42/root/usr/lib/libfoo.so", Event.close 7] ∧
      ((sampleUnmatchedTable.load sampleWorld).2.Resolve
        (sampleUnmatchedTable.load sampleWorld).1 0x7f0000001050).2.2 = "unknown" := by
  obtain ⟨ht, _, _, hlog, _, hres⟩ :=
    load_base_not_found sampleWorld { StartAddr := 0x7f0000001000, Offset := 0x5000 }
      "/proc/42/root" "/usr/lib/libfoo.so" sampleImage rfl (by decide) (by decide)
  refine ⟨?_, ?_, ?_⟩
  · exact ⟨congrArg ElfTable.loaded ht, congrArg ElfTable.err ht⟩
  · rw [show sampleUnmatchedTable.load sampleWorld =
      (NewElfTable { StartAddr := 0x7f0000001000, Offset := 0x5000 } "/proc/42/root"
        "/usr/lib/libfoo.so").load sampleWorld from rfl, hlog]
    decide
  · exact congrArg (fun r => r.2.2) (hres 0x7f0000001050)

theorem getBuildID_hex_witness :
    sampleReader.Section ".note.gnu.build-id" =
        some { Name := ".note.gnu.build-id", data := .ok sampleNote } ∧
      16 ≤ sampleNote.length ∧ byteSlice sampleNote 12 15 = gnuMarker ∧
      getBuildID sampleReader = ("deadbeef", none) := by
  have hsec : sampleReader.Section ".note.gnu.build-id" =
      some { Name := ".note.gnu.build-id", data := .ok sampleNote } := rfl
  have hlen : 16 ≤ sampleNote.length := by decide
  have hgnu : byteSlice sampleNote 12 15 = gnuMarker := by decide
  obtain ⟨herr, hid, _, _, _⟩ := getBuildID_hex sampleReader _ sampleNote hsec rfl hlen hgnu
  refine ⟨hsec, hlen, hgnu, ?_⟩
  have hval : hex.EncodeToString (sampleNote.drop 16) = "deadbeef" := by decide
  exact Prod.ext (hid.trans hval) herr

theorem getBuildID_bad_note_witness :
    (getBuildID sampleShortNoteReader).1 = "" ∧ (getBuildID sampleShortNoteReader).2 ≠ none :=
  have h := getBuildID_bad_note sampleShortNoteReader
    (Or.inr ⟨{ Name := ".note.gnu.build-id", data := .ok (sampleNote.take 12) }, rfl,
      Or.inr ⟨sampleNote.take 12, rfl, Or.inl (by decide)⟩⟩)
  ⟨h.1, h.2.1⟩

theorem findDebugFile_build_id_first_witness :
    3 ≤ "deadbeef".length ∧
      (sampleTable.findDebugFile sampleDebugWorld "deadbeef" sampleReader).2 =
        ("/usr/lib/debug/.build-id/de/adbeef.debug",
          { dev := 1, ino := 10, size := 100, modTime := 1000 }) := by
  have hlen : 3 ≤ "deadbeef".length := by decide
  have h := findDebugFile_build_id_first sampleDebugWorld sampleTable "deadbeef" sampleReader
    { dev := 1, ino := 10, size := 100, modTime := 1000 } hlen rfl
  refine ⟨hlen, ?_⟩
  rw [h]
  decide

theorem findDebugFile_debug_link_order_witness :
    sampleLinkWorld.fileExists
        (path.Join [sampleTable.fs, buildIDDebugFile "deadbeef"]) = false ∧
      6 ≤ sampleDebugLink.length ∧
      (sampleTable.findDebugFile sampleLinkWorld "deadbeef" sampleReader).2 =
        ("/usr/lib/.debug/foo.debug", { dev := 1, ino := 20, size := 200, modTime := 2000 }) := by
  have hmiss : sampleLinkWorld.fileExists
      (path.Join [sampleTable.fs, buildIDDebugFile "deadbeef"]) = false := by decide
  have hlen : 6 ≤ sampleDebugLink.length := by decide
  have h := findDebugFile_debug_link_order sampleLinkWorld sampleTable "deadbeef" sampleReader
    { Name := ".gnu_debuglink", data := .ok sampleDebugLink } sampleDebugLink (Or.inr hmiss)
    rfl rfl hlen
  refine ⟨hmiss, hlen, ?_⟩
  rw [h]
  decide

theorem getELFSymbolsFromSymtab_filter_witness :
    (∀ sym ∈ [({ Name := "undef", Info := 0x12, Value := 0 } : ElfSymbol)] ++
        [{ Name := "data", Info := 0x11, Value := 0x4000 }],
        ¬ (sym.Value ≠ 0 ∧ sym.Info &&& 0xf = STT_FUNC)) ∧
      getELFSymbolsFromSymtab [{ Name := "undef", Info := 0x12, Value := 0 }]
        [{ Name := "data", Info := 0x11, Value := 0x4000 }] = [] := by
  have hnone : ∀ sym ∈ [({ Name := "undef", Info := 0x12, Value := 0 } : ElfSymbol)] ++
      [{ Name := "data", Info := 0x11, Value := 0x4000 }],
      ¬ (sym.Value ≠ 0 ∧ sym.Info &&& 0xf = STT_FUNC) := by decide
  exact ⟨hnone, (getELFSymbolsFromSymtab_filter _ _).2 hnone⟩

/-! ## Multiplicity and determinism of the symbol index -/

theorem getELFSymbolsFromSymtab_perm (symtab dynsym : List ElfSymbol) :
    (getELFSymbolsFromSymtab symtab dynsym).Perm
      (((symtab ++ dynsym).filter ElfSymbol.qualifies).map ElfSymbol.toSym) := by
  unfold getELFSymbolsFromSymtab
  simp only [addSymbols_eq, List.nil_append]
  rw [List.filter_append, List.map_append]
  exact sortFunc_perm _ _

/-- C11, as stated, fails: a function symbol present in the static and in the
dynamic table appears twice in the index. -/
theorem getELFSymbolsFromSymtab_keeps_duplicates :
    getELFSymbolsFromSymtab [{ Name := "foo", Info := 0x12, Value := 0x1000 }]
        [{ Name := "foo", Info := 0x12, Value := 0x1000 }] =
      [{ Name := "foo", Start := 0x1000 }, { Name := "foo", Start := 0x1000 }] ∧
    ¬ (getELFSymbolsFromSymtab [{ Name := "foo", Info := 0x12, Value := 0x1000 }]
        [{ Name := "foo", Info := 0x12, Value := 0x1000 }]).Nodup := by
  decide

/-- C11, amended: an entry occurs in the index as many times as qualifying
entries with its name and value occur in the static and the dynamic table
together; the index has no two equal entries exactly when these qualifying
entries have none. -/
theorem getELFSymbolsFromSymtab_multiplicity (symtab dynsym : List ElfSymbol) :
    (∀ s : Sym, (getELFSymbolsFromSymtab symtab dynsym).count s =
        (((symtab ++ dynsym).filter ElfSymbol.qualifies).map ElfSymbol.toSym).count s) ∧
      ((getELFSymbolsFromSymtab symtab dynsym).Nodup ↔
        (((symtab ++ dynsym).filter ElfSymbol.qualifies).map ElfSymbol.toSym).Nodup) := by
  have hperm := getELFSymbolsFromSymtab_perm symtab dynsym
  exact ⟨fun s => hperm.count_eq s, hperm.nodup_iff⟩

/-- C19: the index depends only on the multiset of qualifying entries: two
inputs whose qualifying `(Name, Start)` entries are permutations of each other
give equal lists; in particular the static and the dynamic table can be
swapped. -/
theorem getELFSymbolsFromSymtab_deterministic (symtab dynsym symtab2 dynsym2 : List ElfSymbol)
    (hperm : (((symtab ++ dynsym).filter ElfSymbol.qualifies).map ElfSymbol.toSym).Perm
      (((symtab2 ++ dynsym2).filter ElfSymbol.qualifies).map ElfSymbol.toSym)) :
    getELFSymbolsFromSymtab symtab dynsym = getELFSymbolsFromSymtab symtab2 dynsym2 ∧
      getELFSymbolsFromSymtab symtab dynsym = getELFSymbolsFromSymtab dynsym symtab := by
  have key : ∀ a b c d : List ElfSymbol,
      (((a ++ b).filter ElfSymbol.qualifies).map ElfSymbol.toSym).Perm
        (((c ++ d).filter ElfSymbol.qualifies).map ElfSymbol.toSym) →
      getELFSymbolsFromSymtab a b = getELFSymbolsFromSymtab c d := by
    intro a b c d h
    have h1 := getELFSymbolsFromSymtab_perm a b
    have h2 := getELFSymbolsFromSymtab_perm c d
    exact @List.eq_of_perm_of_sorted Sym SymOrdered ⟨symOrdered_antisymm⟩ _ _
      (h1.trans (h.trans h2.symm)) (sortFunc_sorted _) (sortFunc_sorted _)
  refine ⟨key _ _ _ _ hperm, key _ _ _ _ ?_⟩
  rw [List.filter_append, List.filter_append, List.map_append, List.map_append]
  exact List.perm_append_comm

theorem getELFSymbolsFromSymtab_deterministic_witness :
    getELFSymbolsFromSymtab sampleImage.symtab sampleImage.dynsym =
        getELFSymbolsFromSymtab sampleImage.dynsym.reverse sampleImage.symtab.reverse ∧
      getELFSymbolsFromSymtab sampleImage.symtab sampleImage.dynsym =
        getELFSymbolsFromSymtab sampleImage.dynsym sampleImage.symtab :=
  getELFSymbolsFromSymtab_deterministic sampleImage.symtab sampleImage.dynsym
    sampleImage.dynsym.reverse sampleImage.symtab.reverse (by decide)

/-! ## Exactness of the note validation -/

/-- C18, as stated, fails: a note with `GNU` at offsets 12 to 14 and a byte
other than NUL at offset 15 is accepted. -/
theorem getBuildID_ignores_offset_15 :
    (sampleNote.set 15 1)[15]? = some 1 ∧
      getBuildID { ptr := 0, image := { sampleImage with
        Sections := [ { Name := ".note.gnu.build-id", data := .ok (sampleNote.set 15 1) } ] } } =
        ("deadbeef", none) := by
  decide

/-- C18, amended: for a present and readable note section, `getBuildID`
succeeds exactly when the payload has at least 16 bytes and the three bytes at
offsets 12 to 14 are `G`, `N`, `U`; the byte at offset 15 is not examined. -/
theorem getBuildID_ok_iff (e : MMapedElfFile) (s : ElfSection) (data : List Byte)
    (hsec : e.Section ".note.gnu.build-id" = some s) (hdata : e.SectionData s = .ok data) :
    ((getBuildID e).2 = none ↔
        16 ≤ data.length ∧ data[12]? = some 0x47 ∧ data[13]? = some 0x4e ∧
          data[14]? = some 0x55) ∧
      ((getBuildID e).2 ≠ none → (getBuildID e).1 = "") := by
  have hslice : byteSlice data 12 15 = gnuMarker ↔
      data[12]? = some 0x47 ∧ data[13]? = some 0x4e ∧ data[14]? = some 0x55 := by
    unfold byteSlice gnuMarker
    rw [List.ext_getElem?_iff]
    constructor
    · intro h
      have h0 := h 0
      have h1 := h 1
      have h2 := h 2
      simp [List.getElem?_take, List.getElem?_drop] at h0 h1 h2
      exact ⟨h0, h1, h2⟩
    · rintro ⟨h0, h1, h2⟩ i
      match i with
      | 0 => simpa [List.getElem?_take, List.getElem?_drop] using h0
      | 1 => simpa [List.getElem?_take, List.getElem?_drop] using h1
      | 2 => simpa [List.getElem?_take, List.getElem?_drop] using h2
      | (k + 3) => simp [List.getElem?_take]
  by_cases hl : data.length < 16
  · have hnl : ¬ 16 ≤ data.length := by omega
    simp [getBuildID, hsec, hdata, hl, hnl]
  · have hge : 16 ≤ data.length := by omega
    by_cases hm : byteSlice data 12 15 = gnuMarker
    · have hm2 := hslice.mp hm
      simp [getBuildID, hsec, hdata, hl, hm, hge, hm2]
    · have hm3 : ¬ (gnuMarker = byteSlice data 12 15) := fun h => hm h.symm
      have hm2 : ¬ (data[12]? = some 0x47 ∧ data[13]? = some 0x4e ∧ data[14]? = some 0x55) :=
        fun h => hm (hslice.mpr h)
      have hres : getBuildID e =
          ("", some (Error.errorf ".note.gnu.build-id is not a GNU build-id")) := by
        simp [getBuildID, hsec, hdata, hl, hm3]
      rw [hres]
      simp [hm2]

theorem getBuildID_ok_iff_witness :
    (getBuildID sampleReader).2 = none ∧ (getBuildID sampleShortNoteReader).2 ≠ none := by
  have h1 := getBuildID_ok_iff sampleReader
    { Name := ".note.gnu.build-id", data := .ok sampleNote } sampleNote rfl rfl
  have h2 := getBuildID_ok_iff sampleShortNoteReader
    { Name := ".note.gnu.build-id", data := .ok (sampleNote.take 12) } (sampleNote.take 12) rfl rfl
  refine ⟨h1.1.mpr (by decide), ?_⟩
  intro hnone
  have := (h2.1.mp hnone).1
  revert this
  decide

/-! ## Frame properties of the debug-file search and of `load` -/

theorem findDebugFileWithBuildID_uniform (stats : String → Except Error FileInfo)
    (fs buildID : String) :
    ∃ (L : List Event) (r : String × Stat), (∀ ev ∈ L, ∃ p, ev = Event.stat p) ∧
      ∀ (w : World) (t : ElfTable), w.stats = stats → t.fs = fs →
        t.findDebugFileWithBuildID w buildID = ({ w with log := w.log ++ L }, r) := by
  by_cases h3 : buildID.length < 3
  · refine ⟨[], ("", Stat.zero), by simp, ?_⟩
    intro w t _ _
    simp [ElfTable.findDebugFileWithBuildID, h3]
  · cases hst : stats (path.Join [fs, buildIDDebugFile buildID]) with
    | ok fi =>
      refine ⟨[Event.stat (path.Join [fs, buildIDDebugFile buildID])],
        (buildIDDebugFile buildID, statFromFileInfo fi), by simp, ?_⟩
      intro w t hw ht
      simp [ElfTable.findDebugFileWithBuildID, h3, os.Stat, World.emit, hst, hw, ht]
    | error err =>
      refine ⟨[Event.stat (path.Join [fs, buildIDDebugFile buildID])], ("", Stat.zero), by simp, ?_⟩
      intro w t hw ht
      simp [ElfTable.findDebugFileWithBuildID, h3, os.Stat, World.emit, hst, hw, ht]

theorem findDebugFileWithDebugLink_uniform (stats : String → Except Error FileInfo)
    (fs elfFilePath : String) (elfFile : MMapedElfFile) :
    ∃ (L : List Event) (r : String × Stat × Option Error),
      (∀ ev ∈ L, ∃ p, ev = Event.stat p) ∧
      ∀ (w : World) (t : ElfTable),
        w.stats = stats → t.fs = fs → t.elfFilePath = elfFilePath →
        t.findDebugFileWithDebugLink w elfFile = ({ w with log := w.log ++ L }, r) := by
  cases hsec : elfFile.Section ".gnu_debuglink" with
  | none =>
    refine ⟨[], ("", Stat.zero, some Error.errNoDebugLink), by simp, ?_⟩
    intro w t _ _ _
    simp [ElfTable.findDebugFileWithDebugLink, hsec]
  | some s =>
    cases hdata : elfFile.SectionData s with
    | error err =>
      refine ⟨[], ("", Stat.zero, some (Error.wrap "reading .gnu_debuglink " err)), by simp, ?_⟩
      intro w t _ _ _
      simp [ElfTable.findDebugFileWithDebugLink, hsec, hdata]
    | ok data =>
      by_cases h6 : data.length < 6
      · refine ⟨[], ("", Stat.zero, some (Error.errorf ".gnu_debuglink is too small")), by simp, ?_⟩
        intro w t _ _ _
        simp [ElfTable.findDebugFileWithDebugLink, hsec, hdata, h6]
      · cases h1 : stats (path.Join [fs, path.Join [path.Dir elfFilePath, cString data]]) with
        | ok fi =>
          refine ⟨[Event.stat (path.Join [fs, path.Join [path.Dir elfFilePath, cString data]])],
            (path.Join [path.Dir elfFilePath, cString data], statFromFileInfo fi, none), by simp, ?_⟩
          intro w t hw ht hp
          simp [ElfTable.findDebugFileWithDebugLink, hsec, hdata, h6, os.Stat, World.emit,
            h1, hw, ht, hp]
        | error e1 =>
          cases h2 : stats
              (path.Join [fs, path.Join [path.Dir elfFilePath, ".debug", cString data]]) with
          | ok fi =>
            refine ⟨[Event.stat (path.Join [fs, path.Join [path.Dir elfFilePath, cString data]]),
                Event.stat
                  (path.Join [fs, path.Join [path.Dir elfFilePath, ".debug", cString data]])],
              (path.Join [path.Dir elfFilePath, ".debug", cString data], statFromFileInfo fi,
                none), by simp, ?_⟩
            intro w t hw ht hp
            simp [ElfTable.findDebugFileWithDebugLink, hsec, hdata, h6, os.Stat, World.emit,
              h1, h2, hw, ht, hp]
          | error e2 =>
            cases h3 : stats (path.Join [fs,
                path.Join ["/usr/lib/debug", path.Dir elfFilePath, cString data]]) with
            | ok fi =>
              refine ⟨[Event.stat
                    (path.Join [fs, path.Join [path.Dir elfFilePath, cString data]]),
                  Event.stat
                    (path.Join [fs, path.Join [path.Dir elfFilePath, ".debug", cString data]]),
                  Event.stat (path.Join [fs,
                    path.Join ["/usr/lib/debug", path.Dir elfFilePath, cString data]])],
                (path.Join ["/usr/lib/debug", path.Dir elfFilePath, cString data],
                  statFromFileInfo fi, none), by simp, ?_⟩
              intro w t hw ht hp
              simp [ElfTable.findDebugFileWithDebugLink, hsec, hdata, h6, os.Stat, World.emit,
                h1, h2, h3, hw, ht, hp]
            | error e3 =>
              refine ⟨[Event.stat
                    (path.Join [fs, path.Join [path.Dir elfFilePath, cString data]]),
                  Event.stat
                    (path.Join [fs, path.Join [path.Dir elfFilePath, ".debug", cString data]]),
                  Event.stat (path.Join [fs,
                    path.Join ["/usr/lib/debug", path.Dir elfFilePath, cString data]])],
                ("", Stat.zero, none), by simp, ?_⟩
              intro w t hw ht hp
              simp [ElfTable.findDebugFileWithDebugLink, hsec, hdata, h6, os.Stat, World.emit,
                h1, h2, h3, hw, ht, hp]

theorem findDebugFile_uniform (stats : String → Except Error FileInfo)
    (fs elfFilePath buildID : String) (elfFile : MMapedElfFile) :
    ∃ (L : List Event) (r : String × Stat), (∀ ev ∈ L, ∃ p, ev = Event.stat p) ∧
      ∀ (w : World) (t : ElfTable),
        w.stats = stats → t.fs = fs → t.elfFilePath = elfFilePath →
        t.findDebugFile w buildID elfFile = ({ w with log := w.log ++ L }, r) := by
  obtain ⟨L1, r1, hL1, h1⟩ := findDebugFileWithBuildID_uniform stats fs buildID
  obtain ⟨L2, r2, hL2, h2⟩ := findDebugFileWithDebugLink_uniform stats fs elfFilePath elfFile
  by_cases hp : r1.1 = ""
  · refine ⟨L1 ++ L2, (r2.1, r2.2.1), ?_, ?_⟩
    · intro ev hev
      rcases List.mem_append.mp hev with h | h
      · exact hL1 ev h
      · exact hL2 ev h
    · intro w t hw ht hpath
      unfold ElfTable.findDebugFile
      rw [h1 w t hw ht]
      have hne : (r1.1 != "") = false := by simpa using hp
      simp only [hne, Bool.false_eq_true, if_false]
      rw [h2 { w with log := w.log ++ L1 } t hw ht hpath]
      simp
  · refine ⟨L1, r1, hL1, ?_⟩
    intro w t hw ht hpath
    unfold ElfTable.findDebugFile
    rw [h1 w t hw ht]
    have hne : (r1.1 != "") = true := by simpa using hp
    simp only [hne, if_true]

theorem findDebugFile_frame (w w2 : World) (t t2 : ElfTable) (buildID : String)
    (elfFile : MMapedElfFile) (hstats : w2.stats = w.stats) (hfs : t2.fs = t.fs)
    (hpath : t2.elfFilePath = t.elfFilePath) :
    t2.findDebugFile w2 buildID elfFile =
      ({ w2 with log := w2.log ++ t.debugFileProbes w buildID elfFile },
        (t.findDebugFile w buildID elfFile).2) := by
  obtain ⟨L, r, _, h⟩ := findDebugFile_uniform w.stats t.fs t.elfFilePath buildID elfFile
  unfold ElfTable.debugFileProbes
  rw [h w2 t2 hstats hfs hpath, h w t rfl rfl rfl, h { w with log := [] } t rfl rfl rfl]
  simp

theorem debugFileProbes_stat (w : World) (t : ElfTable) (buildID : String)
    (elfFile : MMapedElfFile) :
    ∀ ev ∈ t.debugFileProbes w buildID elfFile, ∃ p, ev = Event.stat p := by
  obtain ⟨L, r, hL, h⟩ := findDebugFile_uniform w.stats t.fs t.elfFilePath buildID elfFile
  unfold ElfTable.debugFileProbes
  rw [h { w with log := [] } t rfl rfl rfl]
  simpa using hL

theorem findBaseLoop_fields (m : ProcMap) (t : ElfTable) (ps : List ProgHeader) :
    (findBaseLoop m t ps).2 = { t with base := (findBaseLoop m t ps).2.base } := by
  induction ps with
  | nil => rfl
  | cons q qs ih =>
    unfold findBaseLoop
    split
    · split
      · rfl
      · exact ih
    · exact ih

theorem findBase_fields (t : ElfTable) (e : MMapedElfFile) :
    (t.findBase e).2 = { t with base := (t.findBase e).2.base } := by
  unfold ElfTable.findBase
  split
  · rfl
  · exact findBaseLoop_fields _ _ _

theorem findBase_of_true (t : ElfTable) (e : MMapedElfFile) (h : (t.findBase e).1 = true) :
    t.findBase e = (true, { t with base := (t.findBase e).2.base }) :=
  Prod.ext h (findBase_fields t e)

theorem findBase_of_false (t : ElfTable) (e : MMapedElfFile) (h : (t.findBase e).1 = false) :
    t.findBase e = (false, { t with base := (t.findBase e).2.base }) :=
  Prod.ext h (findBase_fields t e)

/-! ## The paths through `load` -/

theorem load_open_error (w : World) (t : ElfTable) (err : Error)
    (hfresh : t.loaded = false)
    (hopen : w.files (path.Join [t.fs, t.elfFilePath]) = .error err) :
    t.load w =
      ({ w with log := w.log ++ [Event.openFile (path.Join [t.fs, t.elfFilePath])] },
        { t with loaded := true, err := some err }) := by
  simp [ElfTable.load, hfresh, NewMMapedElfFile, World.emit, hopen]

theorem load_no_base (w : World) (t : ElfTable) (img : ElfImage) (b : Nat)
    (hfresh : t.loaded = false) (ht : t.table = SymbolNameResolver.noop)
    (hopen : w.files (path.Join [t.fs, t.elfFilePath]) = .ok img)
    (hbase : ({ t with loaded := true } : ElfTable).findBase { ptr := w.nextPtr, image := img } =
      (false, { t with loaded := true, base := b })) :
    t.load w =
      ({ w with
          nextPtr := w.nextPtr + 1
          log := w.log ++ [Event.openFile (path.Join [t.fs, t.elfFilePath]),
            Event.close w.nextPtr] },
        { t with loaded := true, base := b, err := some Error.errElfBaseNotFound }) := by
  simp [ElfTable.load, hfresh, NewMMapedElfFile, World.emit, hopen, ElfTable.loadOpened, hbase,
    SymbolNameResolver.isNot, MMapedElfFile.close]
  simp [ht, SymbolNameResolver.isNot]

theorem load_build_id_hit (w : World) (t : ElfTable) (img : ElfImage) (b : Nat)
    (s : SymbolNameResolver)
    (hfresh : t.loaded = false)
    (hopen : w.files (path.Join [t.fs, t.elfFilePath]) = .ok img)
    (hbase : ({ t with loaded := true } : ElfTable).findBase { ptr := w.nextPtr, image := img } =
      (true, { t with loaded := true, base := b }))
    (hhit : w.cache.BuildIDCache.lookup (getBuildID { ptr := w.nextPtr, image := img }).1 = some s)
    (hs : s.isNot { ptr := w.nextPtr, image := img } = true) :
    t.load w =
      ({ w with
          nextPtr := w.nextPtr + 1
          log := w.log ++ [Event.openFile (path.Join [t.fs, t.elfFilePath]),
            Event.getByBuildID (getBuildID { ptr := w.nextPtr, image := img }).1,
            Event.close w.nextPtr] },
        { t with loaded := true, base := b, table := s }) := by
  simp [ElfTable.load, hfresh, NewMMapedElfFile, World.emit, hopen, ElfTable.loadOpened, hbase,
    ElfCache.GetSymbolsByBuildID, hhit, hs, MMapedElfFile.close]

theorem load_stat_error (w : World) (t : ElfTable) (img : ElfImage) (b : Nat) (err : Error)
    (hfresh : t.loaded = false) (ht : t.table = SymbolNameResolver.noop)
    (hopen : w.files (path.Join [t.fs, t.elfFilePath]) = .ok img)
    (hbase : ({ t with loaded := true } : ElfTable).findBase { ptr := w.nextPtr, image := img } =
      (true, { t with loaded := true, base := b }))
    (hmiss : w.cache.BuildIDCache.lookup (getBuildID { ptr := w.nextPtr, image := img }).1 = none)
    (hstat : w.stats (path.Join [t.fs, t.elfFilePath]) = .error err) :
    t.load w =
      ({ w with
          nextPtr := w.nextPtr + 1
          log := w.log ++ [Event.openFile (path.Join [t.fs, t.elfFilePath]),
            Event.getByBuildID (getBuildID { ptr := w.nextPtr, image := img }).1,
            Event.stat (path.Join [t.fs, t.elfFilePath]),
            Event.close w.nextPtr] },
        { t with loaded := true, base := b, err := some err }) := by
  simp [ElfTable.load, hfresh, NewMMapedElfFile, World.emit, hopen, ElfTable.loadOpened, hbase,
    ElfCache.GetSymbolsByBuildID, hmiss, os.Stat, hstat, SymbolNameResolver.isNot,
    MMapedElfFile.close]
  simp [ht, SymbolNameResolver.isNot]

theorem load_stat_hit (w : World) (t : ElfTable) (img : ElfImage) (b : Nat) (fi : FileInfo)
    (s : SymbolNameResolver)
    (hfresh : t.loaded = false)
    (hopen : w.files (path.Join [t.fs, t.elfFilePath]) = .ok img)
    (hbase : ({ t with loaded := true } : ElfTable).findBase { ptr := w.nextPtr, image := img } =
      (true, { t with loaded := true, base := b }))
    (hmiss : w.cache.BuildIDCache.lookup (getBuildID { ptr := w.nextPtr, image := img }).1 = none)
    (hstat : w.stats (path.Join [t.fs, t.elfFilePath]) = .ok fi)
    (hhit : w.cache.SameFileCache.lookup (statFromFileInfo fi) = some s)
    (hs : s.isNot { ptr := w.nextPtr, image := img } = true) :
    t.load w =
      ({ w with
          nextPtr := w.nextPtr + 1
          log := w.log ++ [Event.openFile (path.Join [t.fs, t.elfFilePath]),
            Event.getByBuildID (getBuildID { ptr := w.nextPtr, image := img }).1,
            Event.stat (path.Join [t.fs, t.elfFilePath]),
            Event.getByStat (statFromFileInfo fi),
            Event.close w.nextPtr] },
        { t with loaded := true, base := b, table := s }) := by
  simp [ElfTable.load, hfresh, NewMMapedElfFile, World.emit, hopen, ElfTable.loadOpened, hbase,
    ElfCache.GetSymbolsByBuildID, hmiss, os.Stat, hstat, ElfCache.GetSymbolsByStat, hhit, hs,
    MMapedElfFile.close]

theorem load_debug_cached (w : World) (t : ElfTable) (img : ElfImage) (b : Nat) (fi : FileInfo)
    (dp : String) (ds : Stat) (s : SymbolNameResolver)
    (hfresh : t.loaded = false)
    (hopen : w.files (path.Join [t.fs, t.elfFilePath]) = .ok img)
    (hbase : ({ t with loaded := true } : ElfTable).findBase { ptr := w.nextPtr, image := img } =
      (true, { t with loaded := true, base := b }))
    (hmiss : w.cache.BuildIDCache.lookup (getBuildID { ptr := w.nextPtr, image := img }).1 = none)
    (hstat : w.stats (path.Join [t.fs, t.elfFilePath]) = .ok fi)
    (hmiss2 : w.cache.SameFileCache.lookup (statFromFileInfo fi) = none)
    (hfound : (t.findDebugFile w (getBuildID { ptr := w.nextPtr, image := img }).1
      { ptr := w.nextPtr, image := img }).2 = (dp, ds))
    (hdp : dp ≠ "")
    (hhit : w.cache.SameFileCache.lookup ds = some s)
    (hs : s.isNot { ptr := w.nextPtr, image := img } = true) :
    t.load w =
      ({ w with
          nextPtr := w.nextPtr + 1
          log := w.log ++ ([Event.openFile (path.Join [t.fs, t.elfFilePath]),
            Event.getByBuildID (getBuildID { ptr := w.nextPtr, image := img }).1,
            Event.stat (path.Join [t.fs, t.elfFilePath]),
            Event.getByStat (statFromFileInfo fi)] ++
            (t.debugFileProbes w (getBuildID { ptr := w.nextPtr, image := img }).1
              { ptr := w.nextPtr, image := img } ++
            [Event.getByStat ds, Event.close w.nextPtr])) },
        { t with loaded := true, base := b, table := s }) := by
  have hfd : ∀ (w2 : World) (t2 : ElfTable), w2.stats = w.stats → t2.fs = t.fs →
      t2.elfFilePath = t.elfFilePath →
      t2.findDebugFile w2 (getBuildID { ptr := w.nextPtr, image := img }).1
          { ptr := w.nextPtr, image := img } =
        ({ w2 with
            log := w2.log ++
              t.debugFileProbes w (getBuildID { ptr := w.nextPtr, image := img }).1
                { ptr := w.nextPtr, image := img } }, (dp, ds)) := by
    intro w2 t2 h1 h2 h3
    rw [findDebugFile_frame w w2 t t2 _ _ h1 h2 h3, hfound]
  have hdp2 : (dp != "") = true := by simpa using hdp
  simp [ElfTable.load, hfresh, NewMMapedElfFile, World.emit, hopen, ElfTable.loadOpened, hbase,
    ElfCache.GetSymbolsByBuildID, hmiss, os.Stat, hstat, ElfCache.GetSymbolsByStat, hmiss2, hfd, hdp, ElfTable.loadDebugFile, hhit, hs,
    MMapedElfFile.close]

theorem load_debug_open_error (w : World) (t : ElfTable) (img : ElfImage) (b : Nat)
    (fi : FileInfo) (dp : String) (ds : Stat) (err : Error)
    (hfresh : t.loaded = false)
    (ht : t.table = SymbolNameResolver.noop)
    (hopen : w.files (path.Join [t.fs, t.elfFilePath]) = .ok img)
    (hbase : ({ t with loaded := true } : ElfTable).findBase { ptr := w.nextPtr, image := img } =
      (true, { t with loaded := true, base := b }))
    (hmiss : w.cache.BuildIDCache.lookup (getBuildID { ptr := w.nextPtr, image := img }).1 = none)
    (hstat : w.stats (path.Join [t.fs, t.elfFilePath]) = .ok fi)
    (hmiss2 : w.cache.SameFileCache.lookup (statFromFileInfo fi) = none)
    (hfound : (t.findDebugFile w (getBuildID { ptr := w.nextPtr, image := img }).1
      { ptr := w.nextPtr, image := img }).2 = (dp, ds))
    (hdp : dp ≠ "")
    (hmiss3 : w.cache.SameFileCache.lookup ds = none)
    (hdopen : w.files (path.Join [t.fs, dp]) = .error err) :
    t.load w =
      ({ w with
          nextPtr := w.nextPtr + 1
          log := w.log ++ ([Event.openFile (path.Join [t.fs, t.elfFilePath]),
            Event.getByBuildID (getBuildID { ptr := w.nextPtr, image := img }).1,
            Event.stat (path.Join [t.fs, t.elfFilePath]),
            Event.getByStat (statFromFileInfo fi)] ++
            (t.debugFileProbes w (getBuildID { ptr := w.nextPtr, image := img }).1
              { ptr := w.nextPtr, image := img } ++
            [Event.getByStat ds, Event.openFile (path.Join [t.fs, dp]),
              Event.close w.nextPtr])) },
        { t with loaded := true, base := b, err := some err }) := by
  have hfd : ∀ (w2 : World) (t2 : ElfTable), w2.stats = w.stats → t2.fs = t.fs →
      t2.elfFilePath = t.elfFilePath →
      t2.findDebugFile w2 (getBuildID { ptr := w.nextPtr, image := img }).1
          { ptr := w.nextPtr, image := img } =
        ({ w2 with
            log := w2.log ++
              t.debugFileProbes w (getBuildID { ptr := w.nextPtr, image := img }).1
                { ptr := w.nextPtr, image := img } }, (dp, ds)) := by
    intro w2 t2 h1 h2 h3
    rw [findDebugFile_frame w w2 t t2 _ _ h1 h2 h3, hfound]
  simp [ElfTable.load, hfresh, NewMMapedElfFile, World.emit, hopen, ElfTable.loadOpened, hbase,
    ElfCache.GetSymbolsByBuildID, hmiss, os.Stat, hstat, ElfCache.GetSymbolsByStat, hmiss2, hfd, hdp, ElfTable.loadDebugFile, hmiss3, hdopen,
    MMapedElfFile.close]
  simp [ht, SymbolNameResolver.isNot]

theorem load_debug_read_error (w : World) (t : ElfTable) (img : ElfImage) (b : Nat)
    (fi : FileInfo) (dp : String) (ds : Stat) (dimg : ElfImage) (err : Error)
    (hfresh : t.loaded = false)
    (ht : t.table = SymbolNameResolver.noop)
    (hopen : w.files (path.Join [t.fs, t.elfFilePath]) = .ok img)
    (hbase : ({ t with loaded := true } : ElfTable).findBase { ptr := w.nextPtr, image := img } =
      (true, { t with loaded := true, base := b }))
    (hmiss : w.cache.BuildIDCache.lookup (getBuildID { ptr := w.nextPtr, image := img }).1 = none)
    (hstat : w.stats (path.Join [t.fs, t.elfFilePath]) = .ok fi)
    (hmiss2 : w.cache.SameFileCache.lookup (statFromFileInfo fi) = none)
    (hfound : (t.findDebugFile w (getBuildID { ptr := w.nextPtr, image := img }).1
      { ptr := w.nextPtr, image := img }).2 = (dp, ds))
    (hdp : dp ≠ "")
    (hmiss3 : w.cache.SameFileCache.lookup ds = none)
    (hdopen : w.files (path.Join [t.fs, dp]) = .ok dimg)
    (hread : dimg.readSymbolsErr = some err) :
    t.load w =
      ({ w with
          nextPtr := w.nextPtr + 2
          log := w.log ++ ([Event.openFile (path.Join [t.fs, t.elfFilePath]),
            Event.getByBuildID (getBuildID { ptr := w.nextPtr, image := img }).1,
            Event.stat (path.Join [t.fs, t.elfFilePath]),
            Event.getByStat (statFromFileInfo fi)] ++
            (t.debugFileProbes w (getBuildID { ptr := w.nextPtr, image := img }).1
              { ptr := w.nextPtr, image := img } ++
            [Event.getByStat ds, Event.openFile (path.Join [t.fs, dp]),
              Event.readSymbols (w.nextPtr + 1), Event.close (w.nextPtr + 1),
              Event.close w.nextPtr])) },
        { t with loaded := true, base := b, err := none }) := by
  have hfd : ∀ (w2 : World) (t2 : ElfTable), w2.stats = w.stats → t2.fs = t.fs →
      t2.elfFilePath = t.elfFilePath →
      t2.findDebugFile w2 (getBuildID { ptr := w.nextPtr, image := img }).1
          { ptr := w.nextPtr, image := img } =
        ({ w2 with
            log := w2.log ++
              t.debugFileProbes w (getBuildID { ptr := w.nextPtr, image := img }).1
                { ptr := w.nextPtr, image := img } }, (dp, ds)) := by
    intro w2 t2 h1 h2 h3
    rw [findDebugFile_frame w w2 t t2 _ _ h1 h2 h3, hfound]
  simp [ElfTable.load, hfresh, NewMMapedElfFile, World.emit, hopen, ElfTable.loadOpened, hbase,
    ElfCache.GetSymbolsByBuildID, hmiss, os.Stat, hstat, ElfCache.GetSymbolsByStat, hmiss2, hfd, hdp, ElfTable.loadDebugFile, hmiss3, hdopen,
    MMapedElfFile.readSymbols, hread, MMapedElfFile.close]
  simp [ht, SymbolNameResolver.isNot]

theorem load_debug_adopted (w : World) (t : ElfTable) (img : ElfImage) (b : Nat)
    (fi : FileInfo) (dp : String) (ds : Stat) (dimg : ElfImage)
    (hfresh : t.loaded = false)
    (hopen : w.files (path.Join [t.fs, t.elfFilePath]) = .ok img)
    (hbase : ({ t with loaded := true } : ElfTable).findBase { ptr := w.nextPtr, image := img } =
      (true, { t with loaded := true, base := b }))
    (hmiss : w.cache.BuildIDCache.lookup (getBuildID { ptr := w.nextPtr, image := img }).1 = none)
    (hstat : w.stats (path.Join [t.fs, t.elfFilePath]) = .ok fi)
    (hmiss2 : w.cache.SameFileCache.lookup (statFromFileInfo fi) = none)
    (hfound : (t.findDebugFile w (getBuildID { ptr := w.nextPtr, image := img }).1
      { ptr := w.nextPtr, image := img }).2 = (dp, ds))
    (hdp : dp ≠ "")
    (hmiss3 : w.cache.SameFileCache.lookup ds = none)
    (hdopen : w.files (path.Join [t.fs, dp]) = .ok dimg)
    (hread : dimg.readSymbolsErr = none) :
    t.load w =
      ({ w with
          nextPtr := w.nextPtr + 2
          log := w.log ++ ([Event.openFile (path.Join [t.fs, t.elfFilePath]),
            Event.getByBuildID (getBuildID { ptr := w.nextPtr, image := img }).1,
            Event.stat (path.Join [t.fs, t.elfFilePath]),
            Event.getByStat (statFromFileInfo fi)] ++
            (t.debugFileProbes w (getBuildID { ptr := w.nextPtr, image := img }).1
              { ptr := w.nextPtr, image := img } ++
            [Event.getByStat ds, Event.openFile (path.Join [t.fs, dp]),
              Event.readSymbols (w.nextPtr + 1),
              Event.cacheByBuildID (getBuildID { ptr := w.nextPtr, image := img }).1
                (w.nextPtr + 1),
              Event.cacheByStat ds (w.nextPtr + 1),
              Event.close w.nextPtr]))
          cache :=
            { BuildIDCache :=
                if (getBuildID { ptr := w.nextPtr, image := img }).1.data == [] then
                  w.cache.BuildIDCache
                else
                  ((getBuildID { ptr := w.nextPtr, image := img }).1,
                    SymbolNameResolver.elf { ptr := w.nextPtr + 1, image := dimg }) ::
                    w.cache.BuildIDCache
              SameFileCache :=
                if ds == Stat.zero then w.cache.SameFileCache
                else (ds, SymbolNameResolver.elf { ptr := w.nextPtr + 1, image := dimg }) ::
                  w.cache.SameFileCache } },
        { t with loaded := true, base := b,
                 table := SymbolNameResolver.elf { ptr := w.nextPtr + 1, image := dimg } }) := by
  have hfd : ∀ (w2 : World) (t2 : ElfTable), w2.stats = w.stats → t2.fs = t.fs →
      t2.elfFilePath = t.elfFilePath →
      t2.findDebugFile w2 (getBuildID { ptr := w.nextPtr, image := img }).1
          { ptr := w.nextPtr, image := img } =
        ({ w2 with
            log := w2.log ++
              t.debugFileProbes w (getBuildID { ptr := w.nextPtr, image := img }).1
                { ptr := w.nextPtr, image := img } }, (dp, ds)) := by
    intro w2 t2 h1 h2 h3
    rw [findDebugFile_frame w w2 t t2 _ _ h1 h2 h3, hfound]
  simp [ElfTable.load, hfresh, NewMMapedElfFile, World.emit, hopen, ElfTable.loadOpened, hbase,
    ElfCache.GetSymbolsByBuildID, hmiss, os.Stat, hstat, ElfCache.GetSymbolsByStat, hmiss2, hfd, hdp, ElfTable.loadDebugFile, hmiss3, hdopen,
    MMapedElfFile.readSymbols, hread, MMapedElfFile.close, ElfCache.CacheByBuildID,
    ElfCache.CacheByStat, SymbolNameResolver.isNot]
  split <;> split <;> simp

theorem load_read_error (w : World) (t : ElfTable) (img : ElfImage) (b : Nat)
    (fi : FileInfo) (err : Error)
    (hfresh : t.loaded = false)
    (ht : t.table = SymbolNameResolver.noop)
    (hopen : w.files (path.Join [t.fs, t.elfFilePath]) = .ok img)
    (hbase : ({ t with loaded := true } : ElfTable).findBase { ptr := w.nextPtr, image := img } =
      (true, { t with loaded := true, base := b }))
    (hmiss : w.cache.BuildIDCache.lookup (getBuildID { ptr := w.nextPtr, image := img }).1 = none)
    (hstat : w.stats (path.Join [t.fs, t.elfFilePath]) = .ok fi)
    (hmiss2 : w.cache.SameFileCache.lookup (statFromFileInfo fi) = none)
    (hnone : (t.findDebugFile w (getBuildID { ptr := w.nextPtr, image := img }).1
      { ptr := w.nextPtr, image := img }).2.1 = "")
    (hread : img.readSymbolsErr = some err) :
    t.load w =
      ({ w with
          nextPtr := w.nextPtr + 1
          log := w.log ++ ([Event.openFile (path.Join [t.fs, t.elfFilePath]),
            Event.getByBuildID (getBuildID { ptr := w.nextPtr, image := img }).1,
            Event.stat (path.Join [t.fs, t.elfFilePath]),
            Event.getByStat (statFromFileInfo fi)] ++
            (t.debugFileProbes w (getBuildID { ptr := w.nextPtr, image := img }).1
              { ptr := w.nextPtr, image := img } ++
            [Event.readSymbols w.nextPtr, Event.close w.nextPtr])) },
        { t with loaded := true, base := b, err := some err }) := by
  obtain ⟨ds, hds⟩ : ∃ ds, (t.findDebugFile w (getBuildID { ptr := w.nextPtr, image := img }).1
      { ptr := w.nextPtr, image := img }).2 = ("", ds) := ⟨_, Prod.ext hnone rfl⟩
  have hfd : ∀ (w2 : World) (t2 : ElfTable), w2.stats = w.stats → t2.fs = t.fs →
      t2.elfFilePath = t.elfFilePath →
      t2.findDebugFile w2 (getBuildID { ptr := w.nextPtr, image := img }).1
          { ptr := w.nextPtr, image := img } =
        ({ w2 with
            log := w2.log ++
              t.debugFileProbes w (getBuildID { ptr := w.nextPtr, image := img }).1
                { ptr := w.nextPtr, image := img } }, ("", ds)) := by
    intro w2 t2 h1 h2 h3
    rw [findDebugFile_frame w w2 t t2 _ _ h1 h2 h3, hds]
  simp [ElfTable.load, hfresh, NewMMapedElfFile, World.emit, hopen, ElfTable.loadOpened, hbase,
    ElfCache.GetSymbolsByBuildID, hmiss, os.Stat, hstat, ElfCache.GetSymbolsByStat, hmiss2, hfd, MMapedElfFile.readSymbols, hread,
    MMapedElfFile.close]
  simp [ht, SymbolNameResolver.isNot]

theorem load_own_adopted (w : World) (t : ElfTable) (img : ElfImage) (b : Nat)
    (fi : FileInfo)
    (hfresh : t.loaded = false)
    (hopen : w.files (path.Join [t.fs, t.elfFilePath]) = .ok img)
    (hbase : ({ t with loaded := true } : ElfTable).findBase { ptr := w.nextPtr, image := img } =
      (true, { t with loaded := true, base := b }))
    (hmiss : w.cache.BuildIDCache.lookup (getBuildID { ptr := w.nextPtr, image := img }).1 = none)
    (hstat : w.stats (path.Join [t.fs, t.elfFilePath]) = .ok fi)
    (hmiss2 : w.cache.SameFileCache.lookup (statFromFileInfo fi) = none)
    (hnone : (t.findDebugFile w (getBuildID { ptr := w.nextPtr, image := img }).1
      { ptr := w.nextPtr, image := img }).2.1 = "")
    (hread : img.readSymbolsErr = none) :
    t.load w =
      ({ w with
          nextPtr := w.nextPtr + 1
          log := w.log ++ ([Event.openFile (path.Join [t.fs, t.elfFilePath]),
            Event.getByBuildID (getBuildID { ptr := w.nextPtr, image := img }).1,
            Event.stat (path.Join [t.fs, t.elfFilePath]),
            Event.getByStat (statFromFileInfo fi)] ++
            (t.debugFileProbes w (getBuildID { ptr := w.nextPtr, image := img }).1
              { ptr := w.nextPtr, image := img } ++
            [Event.readSymbols w.nextPtr,
              Event.cacheByBuildID (getBuildID { ptr := w.nextPtr, image := img }).1 w.nextPtr,
              Event.cacheByStat (statFromFileInfo fi) w.nextPtr]))
          cache :=
            { BuildIDCache :=
                if (getBuildID { ptr := w.nextPtr, image := img }).1.data == [] then
                  w.cache.BuildIDCache
                else
                  ((getBuildID { ptr := w.nextPtr, image := img }).1,
                    SymbolNameResolver.elf { ptr := w.nextPtr, image := img }) ::
                    w.cache.BuildIDCache
              SameFileCache :=
                if statFromFileInfo fi == Stat.zero then w.cache.SameFileCache
                else (statFromFileInfo fi,
                    SymbolNameResolver.elf { ptr := w.nextPtr, image := img }) ::
                  w.cache.SameFileCache } },
        { t with loaded := true, base := b,
                 table := SymbolNameResolver.elf { ptr := w.nextPtr, image := img } }) := by
  obtain ⟨ds, hds⟩ : ∃ ds, (t.findDebugFile w (getBuildID { ptr := w.nextPtr, image := img }).1
      { ptr := w.nextPtr, image := img }).2 = ("", ds) := ⟨_, Prod.ext hnone rfl⟩
  have hfd : ∀ (w2 : World) (t2 : ElfTable), w2.stats = w.stats → t2.fs = t.fs →
      t2.elfFilePath = t.elfFilePath →
      t2.findDebugFile w2 (getBuildID { ptr := w.nextPtr, image := img }).1
          { ptr := w.nextPtr, image := img } =
        ({ w2 with
            log := w2.log ++
              t.debugFileProbes w (getBuildID { ptr := w.nextPtr, image := img }).1
                { ptr := w.nextPtr, image := img } }, ("", ds)) := by
    intro w2 t2 h1 h2 h3
    rw [findDebugFile_frame w w2 t t2 _ _ h1 h2 h3, hds]
  simp [ElfTable.load, hfresh, NewMMapedElfFile, World.emit, hopen, ElfTable.loadOpened, hbase,
    ElfCache.GetSymbolsByBuildID, hmiss, os.Stat, hstat, ElfCache.GetSymbolsByStat, hmiss2, hfd, MMapedElfFile.readSymbols, hread,
    MMapedElfFile.close, ElfCache.CacheByBuildID, ElfCache.CacheByStat, SymbolNameResolver.isNot]
  split <;> split <;> simp

/-! ## What `load` leaves unchanged -/

theorem loadDebugFile_fields (w : World) (t : ElfTable) (buildID debugFilePath : String)
    (debugFileStat : Stat) :
    (t.loadDebugFile w buildID debugFilePath debugFileStat).2 =
      { t with
        table := (t.loadDebugFile w buildID debugFilePath debugFileStat).2.table
        err := (t.loadDebugFile w buildID debugFilePath debugFileStat).2.err } := by
  unfold ElfTable.loadDebugFile
  cases h1 : w.cache.SameFileCache.lookup debugFileStat with
  | some s => simp [ElfCache.GetSymbolsByStat, h1]
  | none =>
    cases h2 : w.files (path.Join [t.fs, debugFilePath]) with
    | error err => simp [ElfCache.GetSymbolsByStat, h1, NewMMapedElfFile, World.emit, h2]
    | ok img =>
      cases h3 : img.readSymbolsErr with
      | some err =>
        simp [ElfCache.GetSymbolsByStat, h1, NewMMapedElfFile, World.emit, h2,
          MMapedElfFile.readSymbols, h3, SymbolNameResolver.isNot, MMapedElfFile.close]
        split <;> rfl
      | none =>
        simp [ElfCache.GetSymbolsByStat, h1, NewMMapedElfFile, World.emit, h2,
          MMapedElfFile.readSymbols, h3, SymbolNameResolver.isNot, MMapedElfFile.close,
          ElfCache.CacheByBuildID, ElfCache.CacheByStat]

theorem loadOpened_fields (w : World) (t : ElfTable) (me : MMapedElfFile) :
    (t.loadOpened w me).2 =
      { t with
        base := (t.findBase me).2.base
        table := (t.loadOpened w me).2.table
        err := (t.loadOpened w me).2.err } := by
  unfold ElfTable.loadOpened
  cases hok : (t.findBase me).1 with
  | false =>
    obtain ⟨bb, hbb⟩ : ∃ bb, t.findBase me = (false, { t with base := bb }) :=
      ⟨_, findBase_of_false t me hok⟩
    rw [hbb]
  | true =>
    obtain ⟨bb, hbb⟩ : ∃ bb, t.findBase me = (true, { t with base := bb }) :=
      ⟨_, findBase_of_true t me hok⟩
    rw [hbb]
    cases h1 : w.cache.BuildIDCache.lookup (getBuildID me).1 with
    | some s => simp [ElfCache.GetSymbolsByBuildID, h1]
    | none =>
      cases h2 : w.stats (path.Join [t.fs, t.elfFilePath]) with
      | error err => simp [ElfCache.GetSymbolsByBuildID, h1, os.Stat, World.emit, h2]
      | ok fi =>
        cases h3 : w.cache.SameFileCache.lookup (statFromFileInfo fi) with
        | some s =>
          simp [ElfCache.GetSymbolsByBuildID, h1, os.Stat, World.emit, h2,
            ElfCache.GetSymbolsByStat, h3]
        | none =>
          simp only [ElfCache.GetSymbolsByBuildID, h1, os.Stat, World.emit, h2,
            ElfCache.GetSymbolsByStat, h3]
          split
          · rw [loadDebugFile_fields]
          · cases h4 : me.image.readSymbolsErr with
            | some err => simp [MMapedElfFile.readSymbols, h4]
            | none => simp [MMapedElfFile.readSymbols, h4]

theorem load_of_loaded (w : World) (t : ElfTable) (h : t.loaded = true) : t.load w = (w, t) := by
  simp [ElfTable.load, h]

theorem load_loaded (w : World) (t : ElfTable) : (t.load w).2.loaded = true := by
  by_cases h : t.loaded = true
  · rw [load_of_loaded w t h]
    exact h
  · have hf : t.loaded = false := by simpa using h
    unfold ElfTable.load
    cases hopen : w.files (path.Join [t.fs, t.elfFilePath]) with
    | error err => simp [hf, NewMMapedElfFile, World.emit, hopen]
    | ok img =>
      simp only [hf, NewMMapedElfFile, World.emit, hopen, Bool.false_eq_true, if_false]
      split <;> (rw [loadOpened_fields])

theorem load_base (w : World) (t : ElfTable) (img : ElfImage) (hfresh : t.loaded = false)
    (hopen : w.files (path.Join [t.fs, t.elfFilePath]) = .ok img) :
    (t.load w).2.base =
      (({ t with loaded := true } : ElfTable).findBase { ptr := w.nextPtr, image := img }).2.base := by
  unfold ElfTable.load
  simp only [hfresh, NewMMapedElfFile, World.emit, hopen, Bool.false_eq_true, if_false]
  split <;> (rw [loadOpened_fields])

theorem sub64_zero (pc : Nat) (h : pc < 2 ^ 64) : sub64 pc 0 = pc := by
  unfold sub64
  norm_num at h ⊢
  omega

theorem sub64_translate (s v d : Nat) :
    sub64 ((s + d) % 2 ^ 64) (sub64 s v) = (v + d) % 2 ^ 64 := by
  unfold sub64
  norm_num
  omega

/-! ## Idempotence of `load` and address translation -/

theorem Resolve_eq (w : World) (t : ElfTable) (pc : Nat) :
    t.Resolve w pc =
      ((t.load w).1, (t.load w).2, (t.load w).2.table.Resolve (sub64 pc (t.load w).2.base)) := rfl

theorem resolveAll_of_loaded (w : World) (t : ElfTable) (h : t.loaded = true) (pcs : List Nat) :
    t.resolveAll w pcs = (w, t) := by
  induction pcs with
  | nil => rfl
  | cons pc rest ih =>
    unfold ElfTable.resolveAll
    rw [Resolve_eq, load_of_loaded w t h]
    exact ih

/-- C13: `load` on a table with `loaded = true` returns the world and the table
unchanged (no field changes, nothing is added to the log, the cache is the
same); hence `load` after `load` is `load`, a `Resolve` after `load` changes
nothing, and after any non-empty sequence of `Resolve` calls the world and the
table are those left by one `load`. -/
theorem load_idempotent (w : World) (t : ElfTable) :
    (t.loaded = true → t.load w = (w, t)) ∧
      (t.load w).2.load (t.load w).1 = t.load w ∧
      (∀ pc, ((t.load w).2.Resolve (t.load w).1 pc).1 = (t.load w).1 ∧
        ((t.load w).2.Resolve (t.load w).1 pc).2.1 = (t.load w).2) ∧
      ∀ pc pcs, t.resolveAll w (pc :: pcs) = t.load w := by
  have hl := load_loaded w t
  have h2 : (t.load w).2.load (t.load w).1 = t.load w := load_of_loaded _ _ hl
  refine ⟨load_of_loaded w t, h2, ?_, ?_⟩
  · intro pc
    rw [Resolve_eq, h2]
    exact ⟨rfl, rfl⟩
  · intro pc pcs
    unfold ElfTable.resolveAll
    rw [Resolve_eq]
    exact resolveAll_of_loaded _ _ hl pcs

theorem load_idempotent_witness :
    (scenarioTable.load scenarioWorld).2.load (scenarioTable.load scenarioWorld).1 =
        scenarioTable.load scenarioWorld ∧
      (scenarioTable.resolveAll scenarioWorld [0x7f0000001050, 0x7f0000002050, 0]).1.log =
        (scenarioTable.load scenarioWorld).1.log ∧
      ((scenarioTable.load scenarioWorld).2.load (scenarioTable.load scenarioWorld).1).1.log.length =
        11 := by
  obtain ⟨h1, h2, _, h4⟩ := load_idempotent scenarioWorld scenarioTable
  refine ⟨h2, ?_, ?_⟩
  · rw [h4]
  · rw [h2]
    decide

theorem findBase_base_first_match (t : ElfTable) (e : MMapedElfFile)
    (pre post : List ProgHeader) (p : ProgHeader)
    (hpie : e.FileHeader.Typ ≠ ET_EXEC) (hprogs : e.Progs = pre ++ p :: post)
    (hpre : ∀ q ∈ pre, ¬ q.Matches t.procMap) (hp : p.Matches t.procMap) :
    (t.findBase e).2.base = sub64 t.procMap.StartAddr p.Vaddr := by
  have hty : (e.FileHeader.Typ == ET_EXEC) = false := by simpa using hpie
  simp only [ElfTable.findBase, hty, hprogs]
  rw [findBaseLoop_skip _ _ _ _ hpre, findBaseLoop_hit _ _ _ _ hp]
  rfl

theorem findBase_base_exec (t : ElfTable) (e : MMapedElfFile)
    (hexec : e.FileHeader.Typ = ET_EXEC) : (t.findBase e).2.base = 0 := by
  simp [ElfTable.findBase, hexec]

/-- C17: `Resolve(pc)` returns `table.Resolve(pc - base)`, with the wrapping
subtraction and the base and table left by `load`.  When this call loads a
position-independent binary whose first matching segment has virtual address
`V`, for a mapping starting at `S`, `Resolve(S + d)` looks up `V + d` modulo
`2 ^ 64`; when it loads an `ET_EXEC` binary, `Resolve(pc)` looks up `pc`. -/
theorem Resolve_translates (w : World) (t : ElfTable) :
    (∀ pc, t.Resolve w pc =
        ((t.load w).1, (t.load w).2,
          (t.load w).2.table.Resolve (sub64 pc (t.load w).2.base))) ∧
      ∀ img, t.loaded = false → w.files (path.Join [t.fs, t.elfFilePath]) = .ok img →
        (img.FileHeader.Typ = ET_EXEC → ∀ pc, pc < 2 ^ 64 →
          (t.Resolve w pc).2.2 = (t.load w).2.table.Resolve pc) ∧
        (img.FileHeader.Typ ≠ ET_EXEC →
          ∀ pre p post, img.Progs = pre ++ p :: post →
            (∀ q ∈ pre, ¬ q.Matches t.procMap) → p.Matches t.procMap →
            ∀ d, (t.Resolve w ((t.procMap.StartAddr + d) % 2 ^ 64)).2.2 =
              (t.load w).2.table.Resolve ((p.Vaddr + d) % 2 ^ 64)) := by
  refine ⟨fun pc => rfl, ?_⟩
  intro img hfresh hopen
  have hb := load_base w t img hfresh hopen
  constructor
  · intro hexec pc hpc
    have hz := findBase_base_exec ({ t with loaded := true } : ElfTable)
      { ptr := w.nextPtr, image := img } hexec
    rw [Resolve_eq, hb, hz, sub64_zero pc hpc]
  · intro hpie pre p post hprogs hpre hp d
    have hf := findBase_base_first_match ({ t with loaded := true } : ElfTable)
      { ptr := w.nextPtr, image := img } pre post p hpie hprogs hpre hp
    rw [Resolve_eq, hb, hf]
    show (t.load w).2.table.Resolve
      (sub64 ((t.procMap.StartAddr + d) % 2 ^ 64) (sub64 t.procMap.StartAddr p.Vaddr)) = _
    rw [sub64_translate]

theorem Resolve_translates_witness :
    (scenarioTable.Resolve scenarioWorld ((0x7f0000001000 + 0x1050) % 2 ^ 64)).2.2 =
        (scenarioTable.load scenarioWorld).2.table.Resolve ((0 + 0x1050) % 2 ^ 64) ∧
      (scenarioTable.load scenarioWorld).2.table.Resolve ((0 + 0x1050) % 2 ^ 64) = "foo" := by
  have h := (Resolve_translates scenarioWorld scenarioTable).2 scenarioImage rfl rfl
  exact ⟨h.2 (by decide) [] { Typ := PT_LOAD, Flags := 5, Off := 0, Vaddr := 0 } [] rfl
    (by decide) (by decide) 0x1050, by decide⟩

/-! ## The end-to-end scenario -/

/-- C12, as stated, fails: in the scenario (segment at file offset 0 and virtual
address 0, mapping at `0x7f0000001000`, adopted index with `foo` at `0x1000`)
the base is `0x7f0000001000`, so `Resolve(0x7f0000001050)` looks up `0x50` and
answers "unknown". -/
theorem Resolve_scenario_unknown :
    (scenarioTable.load scenarioWorld).2.table =
        SymbolNameResolver.elf { ptr := 8, image := scenarioDebugImage } ∧
      getELFSymbolsFromSymtab scenarioDebugImage.symtab scenarioDebugImage.dynsym =
        [{ Name := "foo", Start := 0x1000 }] ∧
      (scenarioTable.load scenarioWorld).2.base = 0x7f0000001000 ∧
      sub64 0x7f0000001050 (scenarioTable.load scenarioWorld).2.base = 0x50 ∧
      (scenarioTable.Resolve scenarioWorld 0x7f0000001050).2.2 = "unknown" ∧
      (scenarioTable.Resolve scenarioWorld 0x7f0000001050).2.2 ≠ "foo" :=
  ⟨rfl, by decide, by decide, by decide, by decide, by decide⟩

/-- C12, amended: in the scenario `Resolve(a)` looks up `a - 0x7f0000001000`
(wrapping) in the index and answers "foo" exactly when that is at least
`0x1000`, else "unknown"; so `Resolve(0x7f0000001050)` answers "unknown" and
`Resolve(0x7f0000002050)` answers "foo". -/
theorem Resolve_scenario (w : World) (t : ElfTable) (img : ElfImage)
    (pre post : List ProgHeader) (p : ProgHeader) (r : MMapedElfFile)
    (hfresh : t.loaded = false)
    (hmap : t.procMap = { StartAddr := 0x7f0000001000, Offset := 0 })
    (hopen : w.files (path.Join [t.fs, t.elfFilePath]) = .ok img)
    (hpie : img.FileHeader.Typ ≠ ET_EXEC)
    (hprogs : img.Progs = pre ++ p :: post) (hpre : ∀ q ∈ pre, ¬ q.Matches t.procMap)
    (hp : p.Matches t.procMap) (hv : p.Vaddr = 0)
    (hidx : (t.load w).2.table = SymbolNameResolver.elf r)
    (hfoo : getELFSymbolsFromSymtab r.image.symtab r.image.dynsym =
      [{ Name := "foo", Start := 0x1000 }]) :
    (t.load w).2.base = 0x7f0000001000 ∧
      (t.Resolve w 0x7f0000001050).2.2 = "unknown" ∧
      (t.Resolve w 0x7f0000002050).2.2 = "foo" ∧
      ∀ pc, (t.Resolve w pc).2.2 =
        if 0x1000 ≤ sub64 pc 0x7f0000001000 then "foo" else "unknown" := by
  have hb : (t.load w).2.base = 0x7f0000001000 := by
    have hf := findBase_base_first_match ({ t with loaded := true } : ElfTable)
      { ptr := w.nextPtr, image := img } pre post p hpie hprogs hpre hp
    rw [load_base w t img hfresh hopen, hf]
    show sub64 t.procMap.StartAddr p.Vaddr = _
    rw [hmap, hv]
    decide
  have hall : ∀ pc, (t.Resolve w pc).2.2 =
      if 0x1000 ≤ sub64 pc 0x7f0000001000 then "foo" else "unknown" := by
    intro pc
    rw [Resolve_eq, hb, hidx]
    simp only [SymbolNameResolver.Resolve, hfoo, resolveIndex]
    by_cases h : 0x1000 ≤ sub64 pc 0x7f0000001000
    · simp [h]
    · simp [h]
  refine ⟨hb, ?_, ?_, hall⟩
  · rw [hall]
    decide
  · rw [hall]
    decide

theorem Resolve_scenario_witness :
    (scenarioTable.load scenarioWorld).2.table =
        SymbolNameResolver.elf { ptr := 8, image := scenarioDebugImage } ∧
      (scenarioTable.Resolve scenarioWorld 0x7f0000001050).2.2 = "unknown" ∧
      (scenarioTable.Resolve scenarioWorld 0x7f0000002050).2.2 = "foo" := by
  have hidx : (scenarioTable.load scenarioWorld).2.table =
      SymbolNameResolver.elf { ptr := 8, image := scenarioDebugImage } := rfl
  obtain ⟨_, h1, h2, _⟩ := Resolve_scenario scenarioWorld scenarioTable scenarioImage []
    [] { Typ := PT_LOAD, Flags := 5, Off := 0, Vaddr := 0 }
    { ptr := 8, image := scenarioDebugImage } rfl rfl rfl (by decide) rfl (by decide) (by decide)
    rfl hidx (by decide)
  exact ⟨hidx, h1, h2⟩

/-! ## A failure that `load` does not record -/

/-- C14: when the symbols of the located debug file cannot be read, `load` ends
with `err` unset: here the debug file is opened, `readSymbols` fails on it,
both readers are closed, the table keeps the resolver without symbols, and
`err` is `nil`. -/
theorem load_debug_read_error_unrecorded :
    (scenarioTable.load brokenDebugWorld).1.log =
        [Event.openFile "/proc/42/root/usr/lib/libbar.so",
          Event.getByBuildID "abc123",
          Event.stat "/proc/42/root/usr/lib/libbar.so",
          Event.getByStat { dev := 1, ino := 50, size := 500, modTime := 5000 },
          Event.stat "/proc/42/root/usr/lib/debug/.build-id/ab/c123.debug",
          Event.getByStat { dev := 1, ino := 40, size := 400, modTime := 4000 },
          Event.openFile "/proc/42/root/usr/lib/debug/.build-id/ab/c123.debug",
          Event.readSymbols 8, Event.close 8, Event.close 7] ∧
      (scenarioTable.load brokenDebugWorld).2.loaded = true ∧
      (scenarioTable.load brokenDebugWorld).2.err = none ∧
      ∀ pc, (scenarioTable.Resolve brokenDebugWorld pc).2.2 = "unknown" := by
  refine ⟨by decide, by decide, by decide, ?_⟩
  intro pc
  have htab : (scenarioTable.load brokenDebugWorld).2.table = SymbolNameResolver.noop := rfl
  rw [Resolve_eq, htab]
  rfl

/-! ## Outcome of every path through `load` -/

theorem lookup_mem {α β : Type} [BEq α] (k : α) (v : β) (l : List (α × β))
    (h : l.lookup k = some v) : ∃ k2, (k2, v) ∈ l := by
  induction l with
  | nil => simp at h
  | cons e es ih =>
    obtain ⟨k1, v1⟩ := e
    rw [List.lookup_cons] at h
    cases hk : (k == k1) with
    | true =>
      rw [hk] at h
      simp only [Option.some.injEq] at h
      subst h
      exact ⟨k1, List.mem_cons_self _ _⟩
    | false =>
      rw [hk] at h
      obtain ⟨k2, h2⟩ := ih h
      exact ⟨k2, List.mem_cons_of_mem _ h2⟩

theorem cached_is_older (w : World) (s : SymbolNameResolver) (img : ElfImage)
    (hold : w.CacheIsOlder)
    (h : (∃ k, (k, s) ∈ w.cache.BuildIDCache) ∨ (∃ k, (k, s) ∈ w.cache.SameFileCache)) :
    s.isNot { ptr := w.nextPtr, image := img } = true ∧ ¬ s.isReader w.nextPtr := by
  cases s with
  | noop => simp [SymbolNameResolver.isNot, SymbolNameResolver.isReader]
  | elf r =>
    have hlt : r.ptr < w.nextPtr := by
      rcases h with ⟨k, hk⟩ | ⟨k, hk⟩
      · exact hold.1 k r hk
      · exact hold.2 k r hk
    simp only [SymbolNameResolver.isNot, SymbolNameResolver.isReader, bne_iff_ne, ne_eq]
    omega

theorem cacheIsOlder_mono (w : World) (n : Nat) (hold : w.CacheIsOlder) (hn : w.nextPtr ≤ n) :
    ({ w with nextPtr := n, cache := w.cache } : World).CacheIsOlder := by
  constructor
  · intro k r hk
    exact lt_of_lt_of_le (hold.1 k r hk) hn
  · intro k r hk
    exact lt_of_lt_of_le (hold.2 k r hk) hn

theorem probes_no_close (L : List Event) (h : ∀ ev ∈ L, ∃ p, ev = Event.stat p) (p : Nat) :
    Event.close p ∉ L := by
  intro hm
  obtain ⟨q, hq⟩ := h _ hm
  cases hq

theorem probes_no_cacheByBuildID (L : List Event) (h : ∀ ev ∈ L, ∃ p, ev = Event.stat p)
    (k : String) (p : Nat) : Event.cacheByBuildID k p ∉ L := by
  intro hm
  obtain ⟨q, hq⟩ := h _ hm
  cases hq

theorem probes_no_cacheByStat (L : List Event) (h : ∀ ev ∈ L, ∃ p, ev = Event.stat p)
    (k : Stat) (p : Nat) : Event.cacheByStat k p ∉ L := by
  intro hm
  obtain ⟨q, hq⟩ := h _ hm
  cases hq

theorem cacheIsOlder_store (w : World) (n : Nat) (v : MMapedElfFile) (k1 : String)
    (k2 : Stat) (b1 b2 : Bool) (hold : w.CacheIsOlder) (hn : w.nextPtr ≤ n) (hv : v.ptr < n) :
    ({ w with
        nextPtr := n
        cache :=
          { BuildIDCache :=
              if b1 then w.cache.BuildIDCache
              else (k1, SymbolNameResolver.elf v) :: w.cache.BuildIDCache
            SameFileCache :=
              if b2 then w.cache.SameFileCache
              else (k2, SymbolNameResolver.elf v) :: w.cache.SameFileCache } } :
      World).CacheIsOlder := by
  constructor
  · intro k r hk
    simp only at hk
    cases b1 with
    | true => exact lt_of_lt_of_le (hold.1 k r (by simpa using hk)) hn
    | false =>
      simp only [Bool.false_eq_true, if_false, List.mem_cons, Prod.mk.injEq,
        SymbolNameResolver.elf.injEq] at hk
      rcases hk with ⟨_, rfl⟩ | hk
      · exact hv
      · exact lt_of_lt_of_le (hold.1 k r hk) hn
  · intro k r hk
    simp only at hk
    cases b2 with
    | true => exact lt_of_lt_of_le (hold.2 k r (by simpa using hk)) hn
    | false =>
      simp only [Bool.false_eq_true, if_false, List.mem_cons, Prod.mk.injEq,
        SymbolNameResolver.elf.injEq] at hk
      rcases hk with ⟨_, rfl⟩ | hk
      · exact hv
      · exact lt_of_lt_of_le (hold.2 k r hk) hn

theorem load_summary (w : World) (t : ElfTable) (hfresh : t.loaded = false)
    (ht : t.table = SymbolNameResolver.noop) (hold : w.CacheIsOlder) :
    ∃ (ev : List Event) (n : Nat) (c : ElfCache) (b : Nat) (tbl : SymbolNameResolver)
      (e : Option Error),
      t.load w = ({ w with nextPtr := n, log := w.log ++ ev, cache := c },
        { t with loaded := true, base := b, table := tbl, err := e }) ∧
      LoadOutcome w ev n c tbl := by
  cases hopen : w.files (path.Join [t.fs, t.elfFilePath]) with
  | error err =>
    refine ⟨_, _, _, _, _, _, load_open_error w t err hfresh hopen, ?_⟩
    refine ⟨le_refl _, ?_, ?_, ?_, ?_, cacheIsOlder_mono w _ hold (le_refl _)⟩
    · intro p h1 h2
      omega
    · intro p hp
      simp at hp
    · intro k p hp
      simp at hp
    · intro k p hp
      simp at hp
  | ok img =>
    cases hok : (({ t with loaded := true } : ElfTable).findBase
        { ptr := w.nextPtr, image := img }).1 with
    | false =>
      refine ⟨_, _, _, _, _, _,
        load_no_base w t img _ hfresh ht hopen (findBase_of_false _ _ hok), ?_⟩
      refine ⟨Nat.le_succ _, ?_, ?_, ?_, ?_, cacheIsOlder_mono w _ hold (Nat.le_succ _)⟩
      · intro p h1 h2
        have hp : p = w.nextPtr := by omega
        subst hp
        simp [ht, SymbolNameResolver.isReader]
      · intro p hp
        simp at hp
        omega
      · intro k p hp
        simp at hp
      · intro k p hp
        simp at hp
    | true =>
      have hbase := findBase_of_true _ _ hok
      have hprobe := debugFileProbes_stat w t (getBuildID { ptr := w.nextPtr, image := img }).1 { ptr := w.nextPtr, image := img }
      have hpc := probes_no_close _ hprobe
      have hpb := probes_no_cacheByBuildID _ hprobe
      have hps := probes_no_cacheByStat _ hprobe
      cases h1 : w.cache.BuildIDCache.lookup (getBuildID { ptr := w.nextPtr, image := img }).1 with
      | some s =>
        have hs := cached_is_older w s img hold (Or.inl (lookup_mem _ _ _ h1))
        refine ⟨_, _, _, _, _, _, load_build_id_hit w t img _ s hfresh hopen hbase h1 hs.1, ?_⟩
        refine ⟨Nat.le_succ _, ?_, ?_, ?_, ?_,
          cacheIsOlder_mono w _ hold (Nat.le_succ _)⟩
        · intro p h1 h2
          have hp : p = w.nextPtr := by omega
          subst hp
          simp [hs.2]
        · intro p hp
          simp [hpc] at hp
          omega
        · intro k p hp
          simp [hpb] at hp
        · intro k p hp
          simp [hps] at hp
      | none =>
        cases h2 : w.stats (path.Join [t.fs, t.elfFilePath]) with
        | error err =>
          refine ⟨_, _, _, _, _, _,
            load_stat_error w t img _ err hfresh ht hopen hbase h1 h2, ?_⟩
          refine ⟨Nat.le_succ _, ?_, ?_, ?_, ?_,
            cacheIsOlder_mono w _ hold (Nat.le_succ _)⟩
          · intro p h1 h2
            have hp : p = w.nextPtr := by omega
            subst hp
            simp [ht, SymbolNameResolver.isReader, hpc]
          · intro p hp
            simp [hpc] at hp
            omega
          · intro k p hp
            simp [hpb] at hp
          · intro k p hp
            simp [hps] at hp
        | ok fi =>
          cases h3 : w.cache.SameFileCache.lookup (statFromFileInfo fi) with
          | some s =>
            have hs := cached_is_older w s img hold (Or.inr (lookup_mem _ _ _ h3))
            refine ⟨_, _, _, _, _, _,
              load_stat_hit w t img _ fi s hfresh hopen hbase h1 h2 h3 hs.1, ?_⟩
            refine ⟨Nat.le_succ _, ?_, ?_, ?_, ?_,
              cacheIsOlder_mono w _ hold (Nat.le_succ _)⟩
            · intro p h1 h2
              have hp : p = w.nextPtr := by omega
              subst hp
              simp [hs.2]
            · intro p hp
              simp [hpc] at hp
              omega
            · intro k p hp
              simp [hpb] at hp
            · intro k p hp
              simp [hps] at hp
          | none =>
            rcases hfd : (t.findDebugFile w (getBuildID { ptr := w.nextPtr, image := img }).1
              { ptr := w.nextPtr, image := img }).2 with ⟨dp, ds⟩
            by_cases hdp : dp = ""
            · have hnone : (t.findDebugFile w (getBuildID { ptr := w.nextPtr, image := img }).1
                  { ptr := w.nextPtr, image := img }).2.1 = "" := by rw [hfd]; exact hdp
              cases h4 : img.readSymbolsErr with
              | some err =>
                refine ⟨_, _, _, _, _, _,
                  load_read_error w t img _ fi err hfresh ht hopen hbase h1 h2 h3 hnone h4, ?_⟩
                refine ⟨Nat.le_succ _, ?_, ?_, ?_, ?_,
                  cacheIsOlder_mono w _ hold (Nat.le_succ _)⟩
                · intro p h1 h2
                  have hp : p = w.nextPtr := by omega
                  subst hp
                  simp [ht, SymbolNameResolver.isReader, hpc]
                · intro p hp
                  simp [hpc] at hp
                  omega
                · intro k p hp
                  simp [hpb] at hp
                · intro k p hp
                  simp [hps] at hp
              | none =>
                refine ⟨_, _, _, _, _, _,
                  load_own_adopted w t img _ fi hfresh hopen hbase h1 h2 h3 hnone h4, ?_⟩
                refine ⟨by show w.nextPtr ≤ w.nextPtr + 1; omega, ?_, ?_, ?_, ?_,
                  cacheIsOlder_store w _ _ _ _ _ _ hold (by show w.nextPtr ≤ w.nextPtr + 1; omega)
                    (by show w.nextPtr < w.nextPtr + 1; omega)⟩
                · intro p h1 h2
                  simp [SymbolNameResolver.isReader, hpc]
                  omega
                · intro p hp
                  simp [hpc] at hp
                · intro k p hp
                  simp [hpb] at hp
                  obtain ⟨rfl, rfl⟩ := hp
                  refine ⟨by simp [SymbolNameResolver.isReader], by omega, by omega, ?_⟩
                  intro hk
                  simp [hk, List.lookup_cons]
                · intro k p hp
                  simp [hps] at hp
                  obtain ⟨rfl, rfl⟩ := hp
                  refine ⟨by simp [SymbolNameResolver.isReader], by omega, by omega, ?_⟩
                  intro hk
                  simp [hk, List.lookup_cons]
            · cases h5 : w.cache.SameFileCache.lookup ds with
              | some s =>
                have hs := cached_is_older w s img hold (Or.inr (lookup_mem _ _ _ h5))
                refine ⟨_, _, _, _, _, _,
                  load_debug_cached w t img _ fi dp ds s hfresh hopen hbase h1 h2 h3 hfd hdp h5
                    hs.1, ?_⟩
                refine ⟨Nat.le_succ _, ?_, ?_, ?_, ?_,
                  cacheIsOlder_mono w _ hold (Nat.le_succ _)⟩
                · intro p h1 h2
                  have hp : p = w.nextPtr := by omega
                  subst hp
                  simp [hs.2, hpc]
                · intro p hp
                  simp [hpc] at hp
                  omega
                · intro k p hp
                  simp [hpb] at hp
                · intro k p hp
                  simp [hps] at hp
              | none =>
                cases h6 : w.files (path.Join [t.fs, dp]) with
                | error err =>
                  refine ⟨_, _, _, _, _, _,
                    load_debug_open_error w t img _ fi dp ds err hfresh ht hopen hbase h1 h2 h3
                      hfd hdp h5 h6, ?_⟩
                  refine ⟨Nat.le_succ _, ?_, ?_, ?_, ?_,
                    cacheIsOlder_mono w _ hold (Nat.le_succ _)⟩
                  · intro p h1 h2
                    have hp : p = w.nextPtr := by omega
                    subst hp
                    simp [ht, SymbolNameResolver.isReader, hpc]
                  · intro p hp
                    simp [hpc] at hp
                    omega
                  · intro k p hp
                    simp [hpb] at hp
                  · intro k p hp
                    simp [hps] at hp
                | ok dimg =>
                  cases h7 : dimg.readSymbolsErr with
                  | some err =>
                    refine ⟨_, _, _, _, _, _,
                      load_debug_read_error w t img _ fi dp ds dimg err hfresh ht hopen hbase
                        h1 h2 h3 hfd hdp h5 h6 h7, ?_⟩
                    refine ⟨by show w.nextPtr ≤ w.nextPtr + 2; omega, ?_, ?_, ?_, ?_,
                      cacheIsOlder_mono w _ hold (by show w.nextPtr ≤ w.nextPtr + 2; omega)⟩
                    · intro p h1 h2
                      simp [ht, SymbolNameResolver.isReader, hpc]
                      omega
                    · intro p hp
                      simp [hpc] at hp
                      omega
                    · intro k p hp
                      simp [hpb] at hp
                    · intro k p hp
                      simp [hps] at hp
                  | none =>
                    refine ⟨_, _, _, _, _, _,
                      load_debug_adopted w t img _ fi dp ds dimg hfresh hopen hbase h1 h2 h3
                        hfd hdp h5 h6 h7, ?_⟩
                    refine ⟨by show w.nextPtr ≤ w.nextPtr + 2; omega, ?_, ?_, ?_, ?_,
                      cacheIsOlder_store w _ _ _ _ _ _ hold (by show w.nextPtr ≤ w.nextPtr + 2; omega)
                        (by show w.nextPtr + 1 < w.nextPtr + 2; omega)⟩
                    · intro p h1 h2
                      simp [SymbolNameResolver.isReader, hpc]
                      omega
                    · intro p hp
                      simp [hpc] at hp
                      omega
                    · intro k p hp
                      simp [hpb] at hp
                      obtain ⟨rfl, rfl⟩ := hp
                      refine ⟨by simp [SymbolNameResolver.isReader], by omega, by omega, ?_⟩
                      intro hk
                      simp [hk, List.lookup_cons]
                    · intro k p hp
                      simp [hps] at hp
                      obtain ⟨rfl, rfl⟩ := hp
                      refine ⟨by simp [SymbolNameResolver.isReader], by omega, by omega, ?_⟩
                      intro hk
                      simp [hk, List.lookup_cons]

theorem newEvents_append (w : World) (n : Nat) (c : ElfCache) (ev : List Event) :
    w.newEvents { w with nextPtr := n, log := w.log ++ ev, cache := c } = ev := by
  unfold World.newEvents
  exact List.drop_left _ _

theorem newEvents_self (w : World) : w.newEvents w = [] := by
  unfold World.newEvents
  exact List.drop_length _

theorem load_cacheIsOlder (w : World) (t : ElfTable)
    (ht : t.loaded = false → t.table = SymbolNameResolver.noop) (hold : w.CacheIsOlder) :
    (t.load w).1.CacheIsOlder := by
  by_cases hl : t.loaded = true
  · rw [load_of_loaded w t hl]
    exact hold
  · have hf : t.loaded = false := by simpa using hl
    obtain ⟨ev, n, c, b, tbl, e, heq, hout⟩ := load_summary w t hf (ht hf) hold
    rw [heq]
    exact hout.2.2.2.2.2

/-! ## Reader ownership -/

/-- C20: after `load`, a reader that this run opened is closed exactly when it is
not the table's resolver; only readers opened by this run are closed; a reader
stored in the cache by this run is the table's resolver, was opened by this
run and is not closed; the cache keeps holding readers opened before. -/
theorem load_reader_ownership (w : World) (t : ElfTable)
    (ht : t.loaded = false → t.table = SymbolNameResolver.noop) (hold : w.CacheIsOlder) :
    (∀ p, w.nextPtr ≤ p → p < (t.load w).1.nextPtr →
        (Event.close p ∈ w.newEvents (t.load w).1 ↔ ¬ (t.load w).2.table.isReader p)) ∧
      (∀ p, Event.close p ∈ w.newEvents (t.load w).1 →
        w.nextPtr ≤ p ∧ p < (t.load w).1.nextPtr) ∧
      (∀ p, ((∃ k, Event.cacheByBuildID k p ∈ w.newEvents (t.load w).1) ∨
          (∃ k, Event.cacheByStat k p ∈ w.newEvents (t.load w).1)) →
        (t.load w).2.table.isReader p ∧ Event.close p ∉ w.newEvents (t.load w).1 ∧
          w.nextPtr ≤ p ∧ p < (t.load w).1.nextPtr) ∧
      (t.load w).1.CacheIsOlder := by
  by_cases hl : t.loaded = true
  · rw [load_of_loaded w t hl, newEvents_self]
    refine ⟨?_, ?_, ?_, hold⟩
    · intro p h1 h2
      have h3 : p < w.nextPtr := h2
      omega
    · intro p hp
      simp at hp
    · intro p hp
      simp at hp
  · have hf : t.loaded = false := by simpa using hl
    obtain ⟨ev, n, c, b, tbl, e, heq, h1, h2, h3, h4, h5, h6⟩ :=
      load_summary w t hf (ht hf) hold
    rw [heq, newEvents_append]
    refine ⟨h2, h3, ?_, h6⟩
    intro p hp
    have hkey : tbl.isReader p ∧ w.nextPtr ≤ p ∧ p < n := by
      rcases hp with ⟨k, hk⟩ | ⟨k, hk⟩
      · exact ⟨(h4 k p hk).1, (h4 k p hk).2.1, (h4 k p hk).2.2.1⟩
      · exact ⟨(h5 k p hk).1, (h5 k p hk).2.1, (h5 k p hk).2.2.1⟩
    refine ⟨hkey.1, ?_, hkey.2.1, hkey.2.2⟩
    intro hc
    exact ((h2 p hkey.2.1 hkey.2.2).mp hc) hkey.1

theorem load_reader_ownership_witness :
    (Event.close 7 ∈ scenarioWorld.newEvents (scenarioTable.load scenarioWorld).1 ↔
        ¬ (scenarioTable.load scenarioWorld).2.table.isReader 7) ∧
      (Event.close 8 ∈ scenarioWorld.newEvents (scenarioTable.load scenarioWorld).1 ↔
        ¬ (scenarioTable.load scenarioWorld).2.table.isReader 8) ∧
      Event.close 7 ∈ scenarioWorld.newEvents (scenarioTable.load scenarioWorld).1 ∧
      Event.close 8 ∉ scenarioWorld.newEvents (scenarioTable.load scenarioWorld).1 := by
  have hold : scenarioWorld.CacheIsOlder := by
    constructor <;> intro k r hk <;> simp [scenarioWorld] at hk
  obtain ⟨h1, _, _, _⟩ := load_reader_ownership scenarioWorld scenarioTable (fun _ => rfl) hold
  exact ⟨h1 7 (by decide) (by decide), h1 8 (by decide) (by decide), by decide, by decide⟩

/-! ## Cache sharing and cache population -/

theorem string_ne_empty_data (s : String) (h : s ≠ "") : s.data ≠ [] := by
  intro hd
  apply h
  cases s
  simp only at hd
  subst hd
  rfl

/-- C15: when the cache returns an index for the binary's build-id, `load` makes
it the table's resolver, with no stat, no debug-file search, no symbol read and
no store, and closes its reader; when that lookup misses and the lookup by the
file's identity hits, `load` likewise adopts the returned index.  Hence a table
loaded for a binary whose (non-empty) build-id is one an earlier `load` stored
an index under holds the same reader object as the earlier table. -/
theorem load_cache_hit (w : World) (t : ElfTable) (img : ElfImage)
    (hfresh : t.loaded = false)
    (hopen : w.files (path.Join [t.fs, t.elfFilePath]) = .ok img)
    (hbase : (({ t with loaded := true } : ElfTable).findBase
      { ptr := w.nextPtr, image := img }).1 = true)
    (hold : w.CacheIsOlder) :
    (∀ s, w.cache.BuildIDCache.lookup (getBuildID { ptr := w.nextPtr, image := img }).1 = some s →
        (t.load w).2.table = s ∧
        w.newEvents (t.load w).1 =
          [Event.openFile (path.Join [t.fs, t.elfFilePath]),
            Event.getByBuildID (getBuildID { ptr := w.nextPtr, image := img }).1,
            Event.close w.nextPtr] ∧
        (t.load w).1.cache = w.cache) ∧
      (∀ fi s,
        w.cache.BuildIDCache.lookup (getBuildID { ptr := w.nextPtr, image := img }).1 = none →
        w.stats (path.Join [t.fs, t.elfFilePath]) = .ok fi →
        w.cache.SameFileCache.lookup (statFromFileInfo fi) = some s →
        (t.load w).2.table = s ∧
        w.newEvents (t.load w).1 =
          [Event.openFile (path.Join [t.fs, t.elfFilePath]),
            Event.getByBuildID (getBuildID { ptr := w.nextPtr, image := img }).1,
            Event.stat (path.Join [t.fs, t.elfFilePath]),
            Event.getByStat (statFromFileInfo fi),
            Event.close w.nextPtr] ∧
        (t.load w).1.cache = w.cache) ∧
      ∀ (w0 : World) (t0 : ElfTable) (p : Nat),
        t0.loaded = false → t0.table = SymbolNameResolver.noop → w0.CacheIsOlder →
        (t0.load w0).1 = w →
        Event.cacheByBuildID (getBuildID { ptr := w.nextPtr, image := img }).1 p ∈
          w0.newEvents w →
        (getBuildID { ptr := w.nextPtr, image := img }).1 ≠ "" →
        (t.load w).2.table = (t0.load w0).2.table ∧ (t0.load w0).2.table.isReader p := by
  have hb := findBase_of_true _ _ hbase
  have part1 : ∀ s,
      w.cache.BuildIDCache.lookup (getBuildID { ptr := w.nextPtr, image := img }).1 = some s →
      (t.load w).2.table = s ∧
      w.newEvents (t.load w).1 =
        [Event.openFile (path.Join [t.fs, t.elfFilePath]),
          Event.getByBuildID (getBuildID { ptr := w.nextPtr, image := img }).1,
          Event.close w.nextPtr] ∧
      (t.load w).1.cache = w.cache := by
    intro s h1
    have hs := cached_is_older w s img hold (Or.inl (lookup_mem _ _ _ h1))
    have heq := load_build_id_hit w t img _ s hfresh hopen hb h1 hs.1
    rw [heq]
    exact ⟨rfl, newEvents_append w _ w.cache _, rfl⟩
  refine ⟨part1, ?_, ?_⟩
  · intro fi s h1 h2 h3
    have hs := cached_is_older w s img hold (Or.inr (lookup_mem _ _ _ h3))
    have heq := load_stat_hit w t img _ fi s hfresh hopen hb h1 h2 h3 hs.1
    rw [heq]
    exact ⟨rfl, newEvents_append w _ w.cache _, rfl⟩
  · intro w0 t0 p hf0 ht0 hold0 hw hev hid
    obtain ⟨ev, n, c, b, tbl, e, heq, hout⟩ := load_summary w0 t0 hf0 ht0 hold0
    rw [heq] at hw ⊢
    subst hw
    rw [newEvents_append] at hev
    obtain ⟨hr, _, _, hlook⟩ := hout.2.2.2.1 _ p hev
    exact ⟨(part1 tbl (hlook (string_ne_empty_data _ hid))).1, hr⟩

theorem load_cache_hit_witness :
    (scenarioSecondTable.load (scenarioTable.load scenarioWorld).1).2.table =
        (scenarioTable.load scenarioWorld).2.table ∧
      (scenarioTable.load scenarioWorld).2.table.isReader 8 ∧
      (scenarioTable.load scenarioWorld).1.newEvents
          (scenarioSecondTable.load (scenarioTable.load scenarioWorld).1).1 =
        [Event.openFile "/proc/42/root/usr/lib/libbar.so", Event.getByBuildID "abc123",
          Event.close 9] := by
  have hold0 : scenarioWorld.CacheIsOlder := by
    constructor <;> intro k r hk <;> simp [scenarioWorld] at hk
  have hold : (scenarioTable.load scenarioWorld).1.CacheIsOlder :=
    load_cacheIsOlder scenarioWorld scenarioTable (fun _ => rfl) hold0
  obtain ⟨h1, _, h3⟩ := load_cache_hit (scenarioTable.load scenarioWorld).1 scenarioSecondTable
    scenarioImage rfl rfl (by decide) hold
  obtain ⟨h4, h5⟩ := h3 scenarioWorld scenarioTable 8 rfl rfl hold0 rfl (by decide) (by decide)
  exact ⟨h4, h5, (h1 _ rfl).2.1⟩

theorem probes_filter_isStore (L : List Event) (h : ∀ ev ∈ L, ∃ p, ev = Event.stat p) :
    L.filter Event.isStore = [] := by
  rw [List.filter_eq_nil_iff]
  intro ev hev
  obtain ⟨p, rfl⟩ := h ev hev
  simp [Event.isStore]

/-- C16: on a miss of both lookups for the binary: when a debug file is found,
is not cached under its identity, opens and has its symbols read, `load` stores
the debug reader under the binary's build-id and under the debug file's
identity, makes it the table's resolver, and closes the binary's reader; when
no debug file is found and the binary's symbols are read, `load` stores the
binary's reader under the build-id and the binary's identity and makes it the
table's resolver; when the debug file's identity is cached, `load` adopts the
cached index and stores nothing. -/
theorem load_cache_population (w : World) (t : ElfTable) (img : ElfImage) (fi : FileInfo)
    (hfresh : t.loaded = false)
    (hopen : w.files (path.Join [t.fs, t.elfFilePath]) = .ok img)
    (hbase : (({ t with loaded := true } : ElfTable).findBase
      { ptr := w.nextPtr, image := img }).1 = true)
    (hold : w.CacheIsOlder)
    (hmiss : w.cache.BuildIDCache.lookup (getBuildID { ptr := w.nextPtr, image := img }).1 = none)
    (hstat : w.stats (path.Join [t.fs, t.elfFilePath]) = .ok fi)
    (hmiss2 : w.cache.SameFileCache.lookup (statFromFileInfo fi) = none) :
    (∀ dp ds dimg,
        (t.findDebugFile w (getBuildID { ptr := w.nextPtr, image := img }).1
          { ptr := w.nextPtr, image := img }).2 = (dp, ds) → dp ≠ "" →
        w.cache.SameFileCache.lookup ds = none →
        w.files (path.Join [t.fs, dp]) = .ok dimg → dimg.readSymbolsErr = none →
        (t.load w).2.table = SymbolNameResolver.elf { ptr := w.nextPtr + 1, image := dimg } ∧
        (w.newEvents (t.load w).1).filter Event.isStore =
          [Event.cacheByBuildID (getBuildID { ptr := w.nextPtr, image := img }).1
              (w.nextPtr + 1),
            Event.cacheByStat ds (w.nextPtr + 1)] ∧
        Event.close w.nextPtr ∈ w.newEvents (t.load w).1 ∧
        ((getBuildID { ptr := w.nextPtr, image := img }).1 ≠ "" →
          (t.load w).1.cache.BuildIDCache.lookup
              (getBuildID { ptr := w.nextPtr, image := img }).1 =
            some (SymbolNameResolver.elf { ptr := w.nextPtr + 1, image := dimg })) ∧
        (ds ≠ Stat.zero →
          (t.load w).1.cache.SameFileCache.lookup ds =
            some (SymbolNameResolver.elf { ptr := w.nextPtr + 1, image := dimg }))) ∧
      ((t.findDebugFile w (getBuildID { ptr := w.nextPtr, image := img }).1
          { ptr := w.nextPtr, image := img }).2.1 = "" → img.readSymbolsErr = none →
        (t.load w).2.table = SymbolNameResolver.elf { ptr := w.nextPtr, image := img } ∧
        (w.newEvents (t.load w).1).filter Event.isStore =
          [Event.cacheByBuildID (getBuildID { ptr := w.nextPtr, image := img }).1 w.nextPtr,
            Event.cacheByStat (statFromFileInfo fi) w.nextPtr] ∧
        Event.close w.nextPtr ∉ w.newEvents (t.load w).1 ∧
        ((getBuildID { ptr := w.nextPtr, image := img }).1 ≠ "" →
          (t.load w).1.cache.BuildIDCache.lookup
              (getBuildID { ptr := w.nextPtr, image := img }).1 =
            some (SymbolNameResolver.elf { ptr := w.nextPtr, image := img })) ∧
        (statFromFileInfo fi ≠ Stat.zero →
          (t.load w).1.cache.SameFileCache.lookup (statFromFileInfo fi) =
            some (SymbolNameResolver.elf { ptr := w.nextPtr, image := img }))) ∧
      ∀ dp ds s,
        (t.findDebugFile w (getBuildID { ptr := w.nextPtr, image := img }).1
          { ptr := w.nextPtr, image := img }).2 = (dp, ds) → dp ≠ "" →
        w.cache.SameFileCache.lookup ds = some s →
        (t.load w).2.table = s ∧
        (w.newEvents (t.load w).1).filter Event.isStore = [] ∧
        (t.load w).1.cache = w.cache := by
  have hb := findBase_of_true _ _ hbase
  have hprobe := debugFileProbes_stat w t (getBuildID { ptr := w.nextPtr, image := img }).1
    { ptr := w.nextPtr, image := img }
  have hpf := probes_filter_isStore _ hprobe
  have hpc := probes_no_close _ hprobe
  refine ⟨?_, ?_, ?_⟩
  · intro dp ds dimg hfd hdp h5 h6 h7
    have heq := load_debug_adopted w t img _ fi dp ds dimg hfresh hopen hb hmiss hstat hmiss2
      hfd hdp h5 h6 h7
    rw [heq, newEvents_append]
    refine ⟨rfl, ?_, ?_, ?_, ?_⟩
    · simp [List.filter_append, hpf, List.filter, Event.isStore]
    · simp
    · intro hid
      have hd := string_ne_empty_data _ hid
      simp [hd, List.lookup_cons]
    · intro hds
      simp [hds, List.lookup_cons]
  · intro hnone h4
    have heq := load_own_adopted w t img _ fi hfresh hopen hb hmiss hstat hmiss2 hnone h4
    rw [heq, newEvents_append]
    refine ⟨rfl, ?_, ?_, ?_, ?_⟩
    · simp [List.filter_append, hpf, List.filter, Event.isStore]
    · simp [hpc]
    · intro hid
      have hd := string_ne_empty_data _ hid
      simp [hd, List.lookup_cons]
    · intro hds
      simp [hds, List.lookup_cons]
  · intro dp ds s hfd hdp h5
    have hs := cached_is_older w s img hold (Or.inr (lookup_mem _ _ _ h5))
    have heq := load_debug_cached w t img _ fi dp ds s hfresh hopen hb hmiss hstat hmiss2
      hfd hdp h5 hs.1
    rw [heq, newEvents_append]
    refine ⟨rfl, ?_, rfl⟩
    simp [List.filter_append, hpf, List.filter, Event.isStore]

theorem load_cache_population_witness :
    (scenarioTable.load scenarioWorld).2.table =
        SymbolNameResolver.elf { ptr := 8, image := scenarioDebugImage } ∧
      (scenarioWorld.newEvents (scenarioTable.load scenarioWorld).1).filter Event.isStore =
        [Event.cacheByBuildID "abc123" 8,
          Event.cacheByStat { dev := 1, ino := 40, size := 400, modTime := 4000 } 8] ∧
      (scenarioTable.load scenarioNoDebugWorld).2.table =
        SymbolNameResolver.elf { ptr := 7, image := scenarioImage } ∧
      (scenarioNoDebugWorld.newEvents (scenarioTable.load scenarioNoDebugWorld).1).filter
          Event.isStore =
        [Event.cacheByBuildID "abc123" 7,
          Event.cacheByStat { dev := 1, ino := 50, size := 500, modTime := 5000 } 7] := by
  have hold0 : scenarioWorld.CacheIsOlder := by
    constructor <;> intro k r hk <;> simp [scenarioWorld] at hk
  have hold1 : scenarioNoDebugWorld.CacheIsOlder := by
    constructor <;> intro k r hk <;> simp [scenarioNoDebugWorld, scenarioWorld] at hk
  obtain ⟨ha, _, _⟩ := load_cache_population scenarioWorld scenarioTable scenarioImage
    { dev := 1, ino := 50, size := 500, modTime := 5000 } rfl rfl (by decide) hold0 rfl rfl rfl
  obtain ⟨_, hb, _⟩ := load_cache_population scenarioNoDebugWorld scenarioTable scenarioImage
    { dev := 1, ino := 50, size := 500, modTime := 5000 } rfl rfl (by decide) hold1 rfl rfl rfl
  have h1 := ha "/usr/lib/debug/.build-id/ab/c123.debug"
    { dev := 1, ino := 40, size := 400, modTime := 4000 } scenarioDebugImage (by decide)
    (by decide) rfl rfl rfl
  have h2 := hb (by decide) rfl
  exact ⟨h1.1, h1.2.1, h2.1, h2.2.1⟩

end Symtab
